import Mathlib

/-!
Verification model of the lightweight vector database
(src/lightweight_vector_database: hnsw.h, sq.h, database.h).

The C++ code is shallowly embedded as executable Lean definitions:
32-bit floats are modeled as exact rationals; the cosine kernel, which
needs a square root, is passed everywhere as an abstract parameter
`cos` (the L2 and inner-product kernels are exact rational arithmetic).
C++ comparisons that mix `size_t` with `int` (for example
`result_queue.size() == ef`) convert the `int` to an unsigned 64-bit
value; this is modeled by `asSize`.  The per-index Mersenne-Twister
level generator is modeled by passing each insertion's drawn level as
an explicit argument.  The two `std::priority_queue`s of
`search_layer` are modeled as lists kept sorted by the lexicographic
order on (distance, id) pairs, which is the exact pop order of
`std::priority_queue` over `std::pair<float,int>`.  The persistence
byte stream is modeled as a token stream preserving the exact field
order that `Database::save` writes and `Database::load` reads.
-/

namespace VecDB

attribute [local semireducible] Rat.mul Rat.add Rat.sub Rat.inv

abbrev Vec := List ℚ

abbrev Metadata := List (String × String)

/-- Error kinds of the spec's error taxonomy (section 7). -/
inductive Err where
  | DimensionMismatch
  | ReadOnlyViolation
  | QuantizerNotTrained
  | UnknownMetric
  | IoError
deriving DecidableEq

inductive DistanceMetric where
  | L2
  | COSINE
  | IP
deriving DecidableEq

inductive Include where
  | ID
  | DISTANCE
  | METADATA
  | VECTOR
deriving DecidableEq

/-- Search result record (struct QueryResult in hnsw.h). -/
structure QueryResult where
  id : Nat
  distance : ℚ
  metadata : Metadata
  vector : Vec
deriving DecidableEq

/-- Graph node (struct Node in hnsw.h); the constructor resizes
`neighbors` to `max_layer + 1` empty lists. -/
structure Node where
  id : Nat
  max_layer : Nat
  neighbors : List (List Nat)
deriving DecidableEq

/-- Per-dimension affine 8-bit quantizer state (class ScalarQuantizer in sq.h). -/
structure ScalarQuantizer where
  original_dim : Nat
  mins : List ℚ
  maxs : List ℚ
deriving DecidableEq

def ScalarQuantizer.is_trained (sq : ScalarQuantizer) : Bool :=
  !sq.mins.isEmpty

/-- ScalarQuantizer::train: component-wise min/max over the training set;
empty input is a no-op. -/
def ScalarQuantizer.train (sq : ScalarQuantizer) (training_data : List Vec) : ScalarQuantizer :=
  match training_data with
  | [] => sq
  | v0 :: _ =>
    let init := (List.range sq.original_dim).map (fun i => v0.getD i 0)
    let p := training_data.foldl
      (fun (p : List ℚ × List ℚ) v =>
        ((List.range sq.original_dim).map (fun i => min (p.1.getD i 0) (v.getD i 0)),
         (List.range sq.original_dim).map (fun i => max (p.2.getD i 0) (v.getD i 0))))
      (init, init)
    { sq with mins := p.1, maxs := p.2 }

/-- std::round: half away from zero. -/
def roundHalf (q : ℚ) : Int :=
  if 0 ≤ q then ⌊q + 1/2⌋ else ⌈q - 1/2⌉

/-- Body of ScalarQuantizer::encode (without the trained check); the
final cast to uint8_t is modeled by reduction mod 256. -/
def ScalarQuantizer.encodeRaw (sq : ScalarQuantizer) (v : Vec) : List Nat :=
  (List.range sq.original_dim).map (fun i =>
    let r := sq.maxs.getD i 0 - sq.mins.getD i 0
    if r = 0 then 0
    else ((roundHalf ((v.getD i 0 - sq.mins.getD i 0) / r * 255)).emod 256).toNat)

/-- ScalarQuantizer::encode: fails on an untrained quantizer. -/
def ScalarQuantizer.encode (sq : ScalarQuantizer) (v : Vec) : Except Err (List Nat) :=
  if sq.mins.isEmpty || sq.maxs.isEmpty then .error .QuantizerNotTrained
  else .ok (sq.encodeRaw v)

/-- Body of ScalarQuantizer::decode (without the trained check). -/
def ScalarQuantizer.decodeRaw (sq : ScalarQuantizer) (v : List Nat) : Vec :=
  (List.range sq.original_dim).map (fun i =>
    let r := sq.maxs.getD i 0 - sq.mins.getD i 0
    if r = 0 then sq.mins.getD i 0
    else sq.mins.getD i 0 + ((v.getD i 0 : ℚ) / 255) * r)

/-- ScalarQuantizer::decode: fails on an untrained quantizer. -/
def ScalarQuantizer.decode (sq : ScalarQuantizer) (v : List Nat) : Except Err Vec :=
  if sq.mins.isEmpty || sq.maxs.isEmpty then .error .QuantizerNotTrained
  else .ok (sq.decodeRaw v)

/-- ScalarQuantizer::calculate_distance: decode then squared L2 over
the quantizer's dimension range. -/
def ScalarQuantizer.calculate_distance (sq : ScalarQuantizer) (query : Vec) (enc : List Nat) : ℚ :=
  let dec := sq.decodeRaw enc
  ((List.range sq.original_dim).map (fun i =>
    (query.getD i 0 - dec.getD i 0) * (query.getD i 0 - dec.getD i 0))).sum

/-- Vector/metadata store (class VectorStorage in hnsw.h). -/
structure VectorStorage where
  vector_dimension : Nat
  vectors : List Vec
  metadata : List Metadata
  encoded_vectors : List (List Nat)
deriving DecidableEq

/-- VectorStorage::add_vector: rejects wrong-dimension vectors before any
mutation; appends the vector, its metadata and (when a trained quantizer
is attached) its encoding. -/
def VectorStorage.add_vector (sq : Option ScalarQuantizer) (st : VectorStorage)
    (vec : Vec) (meta : Metadata) : Except Err VectorStorage :=
  if vec.length ≠ st.vector_dimension then .error .DimensionMismatch
  else .ok { st with
    vectors := st.vectors ++ [vec]
    metadata := st.metadata ++ [meta]
    encoded_vectors :=
      match sq with
      | some q => if q.is_trained then st.encoded_vectors ++ [q.encodeRaw vec] else st.encoded_vectors
      | none => st.encoded_vectors }

/-- VectorStorage::encode_all_vectors. -/
def VectorStorage.encode_all (sq : Option ScalarQuantizer) (st : VectorStorage) : VectorStorage :=
  match sq with
  | some q => if q.is_trained then { st with encoded_vectors := st.vectors.map q.encodeRaw } else st
  | none => st

/-- HNSW index state (class HNSW in hnsw.h).  `entry_point_id` keeps the
C++ convention: `-1` means no entry point.  The unordered deleted set is
kept as an insertion-ordered duplicate-free list. -/
structure HNSW where
  vector_storage : VectorStorage
  nodes : List Node
  entry_point_id : Int
  M : Int
  efConstruction : Int
  efSearch : Int
  distance_metric : DistanceMetric
  sq : Option ScalarQuantizer
  deleted_nodes : List Nat
deriving DecidableEq

/-- HNSW::calculate_l2_distance: squared Euclidean over `a`'s index range. -/
def calculate_l2_distance (a b : Vec) : ℚ :=
  ((List.range a.length).map (fun i =>
    (a.getD i 0 - b.getD i 0) * (a.getD i 0 - b.getD i 0))).sum

/-- HNSW::calculate_inner_product_distance: negated dot product. -/
def calculate_ip_distance (a b : Vec) : ℚ :=
  -(((List.range a.length).map (fun i => a.getD i 0 * b.getD i 0)).sum)

/-- Metric dispatch of HNSW::calculate_distance(a, b); the cosine kernel
is the abstract parameter `cos`. -/
def metricDist (cos : Vec → Vec → ℚ) (m : DistanceMetric) (a b : Vec) : ℚ :=
  match m with
  | .L2 => calculate_l2_distance a b
  | .COSINE => cos a b
  | .IP => calculate_ip_distance a b

def HNSW.get_vector (s : HNSW) (i : Nat) : Vec :=
  s.vector_storage.vectors.getD i []

def HNSW.get_metadata (s : HNSW) (i : Nat) : Metadata :=
  s.vector_storage.metadata.getD i []

/-- HNSW::calculate_distance(query, node_id): goes through the quantizer
when one is attached and trained. -/
def HNSW.calculate_distance (cos : Vec → Vec → ℚ) (s : HNSW) (q : Vec) (node_id : Nat) : ℚ :=
  match s.sq with
  | some sq =>
    if sq.is_trained then sq.calculate_distance q (s.vector_storage.encoded_vectors.getD node_id [])
    else metricDist cos s.distance_metric q (s.get_vector node_id)
  | none => metricDist cos s.distance_metric q (s.get_vector node_id)

/-- C++ conversion of a signed `int` to `size_t` (unsigned 64-bit),
as performed by the usual arithmetic conversions in mixed comparisons. -/
def asSize (m : Int) : Nat := (m % (2 ^ 64)).toNat

def sizeLt (n : Nat) (m : Int) : Bool := decide (n < asSize m)

def sizeGt (n : Nat) (m : Int) : Bool := decide (asSize m < n)

def sizeGe (n : Nat) (m : Int) : Bool := decide (asSize m ≤ n)

def sizeEq (n : Nat) (m : Int) : Bool := decide (n = asSize m)

/-- Priority-queue entries: (distance, node id), ordered lexicographically
exactly like std::pair<float, int>. -/
abbrev QEntry := ℚ × Nat

def pairLt (a b : QEntry) : Bool :=
  decide (a.1 < b.1) || (decide (a.1 = b.1) && decide (a.2 < b.2))

/-- Ordered insertion into an ascending list (the min-heap `candidate_queue`). -/
def insAsc (x : QEntry) : List QEntry → List QEntry
  | [] => [x]
  | y :: ys => if pairLt x y then x :: y :: ys else y :: insAsc x ys

/-- Ordered insertion into a descending list (the max-heap `result_queue`,
whose head is the top/max element). -/
def insDesc (x : QEntry) : List QEntry → List QEntry
  | [] => [x]
  | y :: ys => if pairLt y x then x :: y :: ys else y :: insDesc x ys

/-- `while (result_queue.size() > ef) result_queue.pop();` on the
descending result list: repeatedly drop the max (head). -/
def trimQ (ef : Int) : List QEntry → List QEntry
  | [] => []
  | x :: xs => if sizeGt (x :: xs).length ef then trimQ ef xs else x :: xs

/-- Loop state of HNSW::search_layer. -/
structure SearchSt where
  cands : List QEntry
  results : List QEntry
  visited : List Nat

def filterOk (filter : Option (Metadata → Bool)) (s : HNSW) (n : Nat) : Bool :=
  match filter with
  | none => true
  | some f => f (s.get_metadata n)

def getNodeAt (s : HNSW) (i : Nat) : Node :=
  s.nodes.getD i ⟨0, 0, [[]]⟩

def neighborsAt (s : HNSW) (i : Nat) (layer : Nat) : List Nat :=
  (getNodeAt s i).neighbors.getD layer []

/-- `result_queue.top().first`; on an empty queue C++ behavior is
undefined, modeled by an arbitrary default. -/
def qTop (l : List QEntry) : ℚ := (l.headD (0, 0)).1

/-- Body of search_layer's inner `for` over the popped node's neighbors
at the layer: skip visited, mark visited, skip tombstoned, and admit by
distance, pushing into the frontier and (filter permitting) the results,
then trimming the results back to at most ef. -/
def visitNeighbor (cos : Vec → Vec → ℚ) (s : HNSW) (q : Vec) (ef : Int)
    (filter : Option (Metadata → Bool)) (st : SearchSt) (n : Nat) : SearchSt :=
  if n ∈ st.visited then st
  else if n ∈ s.deleted_nodes then ⟨st.cands, st.results, st.visited ++ [n]⟩
  else if sizeLt st.results.length ef ||
      decide (HNSW.calculate_distance cos s q n < qTop st.results) then
    ⟨insAsc (HNSW.calculate_distance cos s q n, n) st.cands,
     trimQ ef (if filterOk filter s n
       then insDesc (HNSW.calculate_distance cos s q n, n) st.results else st.results),
     st.visited ++ [n]⟩
  else ⟨st.cands, st.results, st.visited ++ [n]⟩

/-- search_layer's `while (!candidate_queue.empty())` loop.  The fuel is
an upper bound on the number of iterations (each iteration pops one
candidate and pushes only never-visited ids, of which there are at most
one per adjacency occurrence), so the loop always ends by itself. -/
def searchLoop (cos : Vec → Vec → ℚ) (s : HNSW) (q : Vec) (ef : Int) (layer : Nat)
    (filter : Option (Metadata → Bool)) : Nat → SearchSt → List QEntry
  | 0, st => st.results
  | fuel + 1, st =>
    match st.cands with
    | [] => st.results
    | c :: rest =>
      if sizeEq st.results.length ef && decide (qTop st.results < c.1) then st.results
      else
        searchLoop cos s q ef layer filter fuel
          ((neighborsAt s c.2 layer).foldl (visitNeighbor cos s q ef filter)
            ⟨rest, st.results, st.visited⟩)

def totalAdj (s : HNSW) : Nat :=
  (s.nodes.map (fun n => (n.neighbors.map List.length).sum)).sum

/-- The queue state search_layer starts from: a non-tombstoned entry is
seeded into both queues (results only if the filter accepts it); a
tombstoned entry is only marked visited. -/
def searchInit (cos : Vec → Vec → ℚ) (s : HNSW) (q : Vec) (ep : Nat)
    (filter : Option (Metadata → Bool)) : SearchSt :=
  if ep ∈ s.deleted_nodes then ⟨[], [], [ep]⟩
  else ⟨[(HNSW.calculate_distance cos s q ep, ep)],
    if filterOk filter s ep then [(HNSW.calculate_distance cos s q ep, ep)] else [],
    [ep]⟩

/-- HNSW::search_layer.  The final result list is the ids of the result
queue in ascending (distance, id) order. -/
def HNSW.search_layer (cos : Vec → Vec → ℚ) (s : HNSW) (q : Vec) (ep : Nat) (ef : Int)
    (layer : Nat) (filter : Option (Metadata → Bool)) : List Nat :=
  (searchLoop cos s q ef layer filter (totalAdj s + 2) (searchInit cos s q ep filter)).reverse.map
    (·.2)

/-- Layers `top, top-1, ..., lvl+1` of the insertion descent
(`for (layer = top; layer > new_node_layer; --layer)`); empty when
`top ≤ lvl`. -/
def layersAbove (top lvl : Nat) : List Nat :=
  (List.range (top - lvl)).map (fun i => top - i)

/-- Layers `m, m-1, ..., 0` of insertion's connection phase. -/
def layersDown (m : Nat) : List Nat :=
  (List.range (m + 1)).map (fun i => m - i)

/-- Insertion's upper-layer descent: `search_layer(vec, ep, 1, layer)`;
an empty result BREAKS out of the loop, otherwise `ep` becomes the
closest hit. -/
def descendFold (cos : Vec → Vec → ℚ) (s : HNSW) (vec : Vec) : List Nat → Nat → Nat
  | [], ep => ep
  | l :: ls, ep =>
    match HNSW.search_layer cos s vec ep 1 l none with
    | [] => ep
    | x :: _ => descendFold cos s vec ls x

/-- The keep-going descent: on an empty result the entry point is left
unchanged and the loop continues with the next layer.  This is both the
spec's description of insertion's descent and the literal loop of
HNSW::k_nearest_neighbors (which uses `if (!candidates.empty())`). -/
def descendKeep (cos : Vec → Vec → ℚ) (s : HNSW) (q : Vec)
    (filter : Option (Metadata → Bool)) : List Nat → Nat → Nat
  | [], ep => ep
  | l :: ls, ep =>
    descendKeep cos s q filter ls ((HNSW.search_layer cos s q ep 1 l filter).headD ep)

def modifyAt (l : List α) (i : Nat) (f : α → α) : List α :=
  match l, i with
  | [], _ => []
  | x :: xs, 0 => f x :: xs
  | x :: xs, i + 1 => x :: modifyAt xs i f

/-- `nodes[i].neighbors[layer].push_back(x)`. -/
def pushNb (layer : Nat) (x : Nat) (nd : Node) : Node :=
  { nd with neighbors := modifyAt nd.neighbors layer (fun l => l ++ [x]) }

/-- The scan of insertion's pruning block: over the indices of the
neighbor list `lst` of node `nb`, track the (max_dist,
furthest_neighbor_idx) pair, starting from the sentinels (-1.0, -1);
an index only wins when its distance to `nb`'s own vector is strictly
greater than the running maximum. -/
def pruneScan (cos : Vec → Vec → ℚ) (s : HNSW) (nb : Nat) (lst : List Nat) : ℚ × Int :=
  (List.range lst.length).foldl
    (fun (p : ℚ × Int) i =>
      if decide (p.1 < HNSW.calculate_distance cos s (s.get_vector nb) (lst.getD i 0)) then
        (HNSW.calculate_distance cos s (s.get_vector nb) (lst.getD i 0), (i : Int))
      else p)
    (-1, -1)

/-- Insertion's neighbor pruning: erase the scanned furthest neighbor of
`nodes[nb].neighbors[layer]`, when the scan found one at all. -/
def pruneOne (cos : Vec → Vec → ℚ) (s : HNSW) (nb : Nat) (layer : Nat) : HNSW :=
  if (pruneScan cos s nb (neighborsAt s nb layer)).2 ≠ -1 then
    { s with nodes := modifyAt s.nodes nb (fun nd =>
        { nd with neighbors := modifyAt nd.neighbors layer (fun l =>
            l.eraseIdx (pruneScan cos s nb (neighborsAt s nb layer)).2.toNat) }) }
  else s

/-- The symmetric edge addition for one chosen neighbor:
`nodes[new_id].neighbors[layer].push_back(nb)` then
`nodes[nb].neighbors[layer].push_back(new_id)`. -/
def connectStep (new_id layer nb : Nat) (s : HNSW) : HNSW :=
  { s with
    nodes := modifyAt (modifyAt s.nodes new_id (pushNb layer nb)) nb (pushNb layer new_id) }

/-- One neighbor's full treatment: link both ways, then prune the
neighbor's list when it exceeds M. -/
def connectChoice (cos : Vec → Vec → ℚ) (new_id layer nb : Nat) (s : HNSW) : HNSW :=
  if sizeGt (neighborsAt (connectStep new_id layer nb s) nb layer).length
      (connectStep new_id layer nb s).M
  then pruneOne cos (connectStep new_id layer nb s) nb layer
  else connectStep new_id layer nb s

/-- Insertion's symmetric edge additions at one layer, over the chosen
neighbor list. -/
def connectNeighbors (cos : Vec → Vec → ℚ) (new_id : Nat) (layer : Nat) :
    HNSW → List Nat → HNSW
  | s, [] => s
  | s, nb :: rest =>
    connectNeighbors cos new_id layer (connectChoice cos new_id layer nb s) rest

/-- Insertion's connection phase over layers `min(new_layer, top) .. 0`:
search with `efConstruction`, skip empty layers, take the first
`min(M, |found|)` results as the new node's neighbors, connect them, and
reseed the entry from the first hit. -/
def insertLayers (cos : Vec → Vec → ℚ) (vec : Vec) (new_id : Nat) :
    List Nat → HNSW → Nat → HNSW × Nat
  | [], s, ep => (s, ep)
  | l :: ls, s, ep =>
    match HNSW.search_layer cos s vec ep s.efConstruction l none with
    | [] => insertLayers cos vec new_id ls s ep
    | f :: fs =>
      insertLayers cos vec new_id ls
        (connectNeighbors cos new_id l s ((f :: fs).take (asSize s.M))) f

/-- The state after insertion appended the vector and the fresh node
(`nodes.emplace_back(new_node_id, new_node_layer)`). -/
def insertAppended (s : HNSW) (st : VectorStorage) (new_id lvl : Nat) : HNSW :=
  { s with
    vector_storage := st
    nodes := s.nodes ++ [⟨new_id, lvl, List.replicate (lvl + 1) []⟩] }

/-- Insertion's two search phases on the appended state `s1`: the
upper-layer descent (ef = 1, with break), then the connection phase from
`min(new_layer, top)` down to layer 0.  `top` is read from
`nodes[entry_point_id].max_layer` before any modification, as in the
source. -/
def insertConnected (cos : Vec → Vec → ℚ) (s1 : HNSW) (vec : Vec) (new_id lvl : Nat) :
    HNSW :=
  (insertLayers cos vec new_id
    (layersDown (min lvl (getNodeAt s1 s1.entry_point_id.toNat).max_layer)) s1
    (descendFold cos s1 vec
      (layersAbove (getNodeAt s1 s1.entry_point_id.toNat).max_layer lvl)
      s1.entry_point_id.toNat)).1

/-- Insertion after the append: an empty index adopts the new node as
entry point and returns; otherwise run both phases and finally promote
the new node to entry point iff its level exceeds
`nodes[entry_point_id].max_layer`. -/
def insertGo (cos : Vec → Vec → ℚ) (s1 : HNSW) (vec : Vec) (new_id lvl : Nat) : HNSW :=
  if s1.entry_point_id = -1 then { s1 with entry_point_id := (new_id : Int) }
  else
    if (getNodeAt (insertConnected cos s1 vec new_id lvl)
        (insertConnected cos s1 vec new_id lvl).entry_point_id.toNat).max_layer < lvl
    then { insertConnected cos s1 vec new_id lvl with entry_point_id := (new_id : Int) }
    else insertConnected cos s1 vec new_id lvl

/-- HNSW::insert.  The randomly drawn level is the explicit argument
`lvl`.  A dimension mismatch propagates out of add_vector before any
node is appended, leaving the state untouched. -/
def HNSW.insert (cos : Vec → Vec → ℚ) (s : HNSW) (vec : Vec) (meta : Metadata)
    (lvl : Nat) : Except Err Nat × HNSW :=
  match VectorStorage.add_vector s.sq s.vector_storage vec meta with
  | .error e => (.error e, s)
  | .ok st =>
    (.ok s.vector_storage.vectors.length,
     insertGo cos (insertAppended s st s.vector_storage.vectors.length lvl) vec
       s.vector_storage.vectors.length lvl)

/-- The rescan of HNSW::mark_deleted: pick the non-deleted node with the
greatest max_layer, starting from `(new_entry_point, max_layer) = (-1, -1)`. -/
def rescanGo (del : List Nat) : Int × Int → List Node → Int × Int
  | p, [] => p
  | p, n :: ns =>
    rescanGo del
      (if n.id ∈ del then p
       else if p.2 < (n.max_layer : Int) then ((n.id : Int), (n.max_layer : Int)) else p) ns

/-- std::unordered_set::insert on the insertion-ordered deleted list. -/
def delInsert (del : List Nat) (id : Nat) : List Nat :=
  if id ∈ del then del else del ++ [id]

/-- HNSW::mark_deleted.  The C++ guard `entry_point_id == id` compares a
signed int with a uint32_t, converting the int to unsigned 32-bit. -/
def HNSW.mark_deleted (s : HNSW) (id : Nat) : HNSW :=
  if s.entry_point_id % (2 ^ 32) = (id : Int) then
    { s with
      deleted_nodes := delInsert s.deleted_nodes id
      entry_point_id := (rescanGo (delInsert s.deleted_nodes id) (-1, -1) s.nodes).1 }
  else { s with deleted_nodes := delInsert s.deleted_nodes id }

/-- Population of a QueryResult from the `include` set; unselected fields
keep their defaults. -/
def mkResult (cos : Vec → Vec → ℚ) (s : HNSW) (q : Vec) (inc : List Include)
    (id : Nat) : QueryResult :=
  { id := id
    distance := if Include.DISTANCE ∈ inc then HNSW.calculate_distance cos s q id else 0
    metadata := if Include.METADATA ∈ inc then s.get_metadata id else []
    vector := if Include.VECTOR ∈ inc then s.get_vector id else [] }

/-- The skim loop of HNSW::k_nearest_neighbors: skip tombstoned ids, stop
once `final_results.size() >= k` (a size_t/int comparison), else keep
the id. -/
def skim (cos : Vec → Vec → ℚ) (s : HNSW) (q : Vec) (k : Int) (inc : List Include) :
    List Nat → List QueryResult → List QueryResult
  | [], acc => acc
  | id :: rest, acc =>
    if id ∈ s.deleted_nodes then skim cos s q k inc rest acc
    else if sizeGe acc.length k then acc
    else skim cos s q k inc rest (acc ++ [mkResult cos s q inc id])

/-- HNSW::k_nearest_neighbors. -/
def HNSW.k_nearest_neighbors (cos : Vec → Vec → ℚ) (s : HNSW) (q : Vec) (k : Int)
    (filter : Option (Metadata → Bool)) (inc : List Include) : List QueryResult :=
  if s.entry_point_id = -1 then []
  else
    let ep0 := s.entry_point_id.toNat
    let top := (getNodeAt s ep0).max_layer
    let ep := descendKeep cos s q filter (layersAbove top 0) ep0
    let ids := HNSW.search_layer cos s q ep (max k s.efSearch) 0 filter
    skim cos s q k inc ids []

inductive SyncMode where
  | FULL
  | NORMAL
  | OFF
deriving DecidableEq

/-- The facade (class Database in database.h). -/
structure Database where
  db_path : String
  hnsw : HNSW
  read_only : Bool
  cache_size_mb : Nat
deriving DecidableEq

/-- One field of the persistence stream; `sz` is a size_t, `i32`/`u32`
are 4-byte integers, `f32` a 4-byte float, `str` raw string bytes. -/
inductive Tok where
  | b (x : Bool)
  | sz (n : Nat)
  | i32 (i : Int)
  | u32 (n : Nat)
  | f32 (q : ℚ)
  | str (s : String)
deriving DecidableEq

def flatList (f : α → List β) : List α → List β
  | [] => []
  | x :: xs => f x ++ flatList f xs

def metricToInt : DistanceMetric → Int
  | .L2 => 0
  | .COSINE => 1
  | .IP => 2

def metricOfInt (i : Int) : Option DistanceMetric :=
  if i = 0 then some .L2 else if i = 1 then some .COSINE else if i = 2 then some .IP else none

/-- ScalarQuantizer::save writes `original_dim_` floats out of `mins_`
and `maxs_` even when they are shorter (untrained quantizer), an
out-of-bounds read whose indeterminate bytes are modeled as zeros. -/
def sqToks (q : ScalarQuantizer) : List Tok :=
  Tok.sz q.original_dim ::
    ((List.range q.original_dim).map (fun i => Tok.f32 (q.mins.getD i 0)) ++
     (List.range q.original_dim).map (fun i => Tok.f32 (q.maxs.getD i 0)))

/-- Per-node section of Database::save: id, max_layer, then for each
layer `0..=max_layer` the neighbor count and the neighbor ids as int32. -/
def nodeToks (n : Node) : List Tok :=
  Tok.u32 n.id :: Tok.i32 (n.max_layer : Int) ::
    flatList (fun l =>
      Tok.sz (n.neighbors.getD l []).length ::
        (n.neighbors.getD l []).map (fun (x : Nat) => Tok.i32 (x : Int)))
      (List.range (n.max_layer + 1))

/-- Metadata section: pair count, then (key_size, key, value_size, value)
in the std::map's key order. -/
def metaToks (m : Metadata) : List Tok :=
  Tok.sz m.length ::
    flatList (fun p => [Tok.sz p.1.length, Tok.str p.1, Tok.sz p.2.length, Tok.str p.2]) m

/-- Database::save's full field order. -/
def saveToks (db : Database) : List Tok :=
  let s := db.hnsw
  (Tok.b s.sq.isSome ::
    (match s.sq with | some q => sqToks q | none => [])) ++
  [Tok.i32 s.M, Tok.i32 s.efConstruction, Tok.i32 s.efSearch,
   Tok.i32 (metricToInt s.distance_metric)] ++
  (Tok.sz s.nodes.length :: flatList nodeToks s.nodes) ++
  [Tok.sz s.vector_storage.vectors.length, Tok.sz s.vector_storage.vector_dimension] ++
  flatList (fun p => p.1.map Tok.f32 ++ metaToks p.2)
    (s.vector_storage.vectors.zip s.vector_storage.metadata) ++
  (Tok.sz s.deleted_nodes.length :: s.deleted_nodes.map Tok.u32)

def rdB : List Tok → Option (Bool × List Tok)
  | Tok.b x :: ts => some (x, ts)
  | _ => none

def rdSz : List Tok → Option (Nat × List Tok)
  | Tok.sz n :: ts => some (n, ts)
  | _ => none

def rdI32 : List Tok → Option (Int × List Tok)
  | Tok.i32 i :: ts => some (i, ts)
  | _ => none

def rdU32 : List Tok → Option (Nat × List Tok)
  | Tok.u32 n :: ts => some (n, ts)
  | _ => none

def rdF32 : List Tok → Option (ℚ × List Tok)
  | Tok.f32 q :: ts => some (q, ts)
  | _ => none

def rdStr : List Tok → Option (String × List Tok)
  | Tok.str s :: ts => some (s, ts)
  | _ => none

/-- Read a fixed count of items. -/
def rdN (p : List Tok → Option (α × List Tok)) : Nat → List Tok → Option (List α × List Tok)
  | 0, ts => some ([], ts)
  | n + 1, ts =>
    match p ts with
    | none => none
    | some (a, ts1) =>
      match rdN p n ts1 with
      | none => none
      | some (as, ts2) => some (a :: as, ts2)

/-- A neighbor id on disk is a signed int32; a negative id would be used
as a vector index by the C++ code (undefined), so parsing rejects it. -/
def rdNbId (ts : List Tok) : Option (Nat × List Tok) :=
  match rdI32 ts with
  | some (i, ts1) => if i < 0 then none else some (i.toNat, ts1)
  | none => none

def rdLayer (ts : List Tok) : Option (List Nat × List Tok) :=
  match rdSz ts with
  | some (n, ts1) => rdN rdNbId n ts1
  | none => none

def rdNode (ts : List Tok) : Option (Node × List Tok) :=
  match rdU32 ts with
  | some (id, ts1) =>
    match rdI32 ts1 with
    | some (mlI, ts2) =>
      if mlI < 0 then none
      else
        match rdN rdLayer (mlI.toNat + 1) ts2 with
        | some (nbs, ts3) => some (⟨id, mlI.toNat, nbs⟩, ts3)
        | none => none
    | none => none
  | none => none

/-- `meta[key] = value` on a std::map kept as a key-sorted association list. -/
def mapInsert (k v : String) : Metadata → Metadata
  | [] => [(k, v)]
  | (k1, v1) :: rest =>
    if k < k1 then (k, v) :: (k1, v1) :: rest
    else if k = k1 then (k, v) :: rest
    else (k1, v1) :: mapInsert k v rest

def rdPair (ts : List Tok) : Option ((String × String) × List Tok) :=
  match rdSz ts with
  | some (_, ts1) =>
    match rdStr ts1 with
    | some (k, ts2) =>
      match rdSz ts2 with
      | some (_, ts3) =>
        match rdStr ts3 with
        | some (v, ts4) => some ((k, v), ts4)
        | none => none
      | none => none
    | none => none
  | none => none

def rdMeta (ts : List Tok) : Option (Metadata × List Tok) :=
  match rdSz ts with
  | some (n, ts1) =>
    match rdN rdPair n ts1 with
    | some (ps, ts2) => some (ps.foldl (fun acc p => mapInsert p.1 p.2 acc) [], ts2)
    | none => none
  | none => none

def rdVecMeta (dim : Nat) (ts : List Tok) : Option ((Vec × Metadata) × List Tok) :=
  match rdN rdF32 dim ts with
  | some (v, ts1) =>
    match rdMeta ts1 with
    | some (m, ts2) => some ((v, m), ts2)
    | none => none
  | none => none

def rdSQ (ts : List Tok) : Option (ScalarQuantizer × List Tok) :=
  match rdSz ts with
  | some (d, ts1) =>
    match rdN rdF32 d ts1 with
    | some (mins, ts2) =>
      match rdN rdF32 d ts2 with
      | some (maxs, ts3) => some (⟨d, mins, maxs⟩, ts3)
      | none => none
    | none => none
  | none => none

/-- std::unordered_set insertion order: keep first occurrences. -/
def setIns (acc : List Nat) (x : Nat) : List Nat :=
  if x ∈ acc then acc else acc ++ [x]

/-- Database::load's read sequence.  When the file says quantization is
disabled, the database's existing quantizer (possibly none) is kept and
wired into the rebuilt HNSW, exactly as the C++ `sq_.get()` does.  The
entry point is set to the LAST node's id (the load constructor's
`nodes.back().id`), or -1 when there are no nodes. -/
def parseFile (oldSq : Option ScalarQuantizer) (ts : List Tok) : Option HNSW :=
  match rdB ts with
  | none => none
  | some (sqe, ts1) =>
    let step :=
      if sqe then
        match rdSQ ts1 with
        | some (q, ts2) => some (some q, ts2)
        | none => none
      else some (oldSq, ts1)
    match step with
    | none => none
    | some (sqN, ts2) =>
      match rdI32 ts2 with
      | none => none
      | some (M, ts3) =>
        match rdI32 ts3 with
        | none => none
        | some (efC, ts4) =>
          match rdI32 ts4 with
          | none => none
          | some (efS, ts5) =>
            match rdI32 ts5 with
            | none => none
            | some (mi, ts6) =>
              match metricOfInt mi with
              | none => none
              | some metric =>
                match rdSz ts6 with
                | none => none
                | some (numNodes, ts7) =>
                  match rdN rdNode numNodes ts7 with
                  | none => none
                  | some (nodes, ts8) =>
                    match rdSz ts8 with
                    | none => none
                    | some (numVecs, ts9) =>
                      match rdSz ts9 with
                      | none => none
                      | some (dim, ts10) =>
                        match rdN (rdVecMeta dim) numVecs ts10 with
                        | none => none
                        | some (vms, ts11) =>
                          match rdSz ts11 with
                          | none => none
                          | some (numDel, ts12) =>
                            match rdN rdU32 numDel ts12 with
                            | none => none
                            | some (dels, _) =>
                              let vectors := vms.map (·.1)
                              let metas := vms.map (·.2)
                              let encoded :=
                                match sqN with
                                | some q => if q.is_trained then vectors.map q.encodeRaw else []
                                | none => []
                              some { vector_storage := ⟨dim, vectors, metas, encoded⟩
                                     nodes := nodes
                                     entry_point_id :=
                                       match nodes.getLast? with
                                       | some n => (n.id : Int)
                                       | none => -1
                                     M := M
                                     efConstruction := efC
                                     efSearch := efS
                                     distance_metric := metric
                                     sq := sqN
                                     deleted_nodes := dels.foldl setIns [] }

/-- Database::insert. -/
def Database.insert (cos : Vec → Vec → ℚ) (db : Database) (vec : Vec) (meta : Metadata)
    (lvl : Nat) : Except Err Nat × Database :=
  if db.read_only then (.error .ReadOnlyViolation, db)
  else
    let r := HNSW.insert cos db.hnsw vec meta lvl
    (r.1, { db with hnsw := r.2 })

/-- Database::delete_vector. -/
def Database.delete_vector (db : Database) (id : Nat) : Except Err Unit × Database :=
  if db.read_only then (.error .ReadOnlyViolation, db)
  else (.ok (), { db with hnsw := db.hnsw.mark_deleted id })

/-- Database::update_vector: delete then insert, each rechecking the
read-only flag; an exception from either propagates. -/
def Database.update_vector (cos : Vec → Vec → ℚ) (db : Database) (id : Nat) (vec : Vec)
    (meta : Metadata) (lvl : Nat) : Except Err Nat × Database :=
  if db.read_only then (.error .ReadOnlyViolation, db)
  else
    match Database.delete_vector db id with
    | (.error e, db1) => (.error e, db1)
    | (.ok _, db1) => Database.insert cos db1 vec meta lvl

/-- Database::query: a pure read. -/
def Database.query (cos : Vec → Vec → ℚ) (db : Database) (q : Vec) (k : Int)
    (filter : Option (Metadata → Bool)) (inc : List Include) :
    List QueryResult × Database :=
  (HNSW.k_nearest_neighbors cos db.hnsw q k filter inc, db)

/-- Database::train_quantizer: train on every stored vector (tombstoned
included), then re-encode all vectors. -/
def Database.train_quantizer (db : Database) : Database :=
  match db.hnsw.sq with
  | none => db
  | some q =>
    let q1 := q.train db.hnsw.vector_storage.vectors
    let st := VectorStorage.encode_all (some q1) db.hnsw.vector_storage
    { db with hnsw := { db.hnsw with sq := some q1, vector_storage := st } }

/-- Database::rebuild_index: train the quantizer, then re-insert every
non-deleted vector in ascending id order into a fresh index with the
same parameters.  `lvls k` is the level drawn for the k-th re-insertion. -/
def Database.rebuild_index (cos : Vec → Vec → ℚ) (db : Database) (lvls : Nat → Nat) :
    Except Err Unit × Database :=
  if db.read_only then (.error .ReadOnlyViolation, db)
  else
    let db1 := db.train_quantizer
    let s := db1.hnsw
    let fresh : HNSW := ⟨⟨s.vector_storage.vector_dimension, [], [], []⟩, [], -1,
      s.M, s.efConstruction, s.efSearch, s.distance_metric, s.sq, []⟩
    let h :=
      ((List.range s.vector_storage.vectors.length).foldl
        (fun (p : HNSW × Nat) i =>
          if i ∈ s.deleted_nodes then p
          else ((HNSW.insert cos p.1 (s.get_vector i) (s.get_metadata i) (lvls p.2)).2, p.2 + 1))
        (fresh, 0)).1
    (.ok (), { db1 with hnsw := h })

/-- Database::save: read-only guard, then the token stream; sync_mode
only controls the flush, not the bytes. -/
def Database.save (db : Database) (_sync : SyncMode) : Except Err (List Tok) × Database :=
  if db.read_only then (.error .ReadOnlyViolation, db)
  else (.ok (saveToks db), db)

/-- Database::load: `none` models a file that does not exist or cannot be
opened (`if (!ifs) return;`), which leaves the database untouched. -/
def Database.load (db : Database) (file : Option (List Tok)) : Database :=
  match file with
  | none => db
  | some ts =>
    match parseFile db.hnsw.sq ts with
    | none => db
    | some h => { db with hnsw := h }

/-- The Database constructor: builds an empty index (wiring in an
untrained quantizer when sq_enabled), and immediately loads when
read_only. -/
def mkDatabase (path : String) (dim : Nat) (M efC efS : Int) (metric : DistanceMetric)
    (read_only : Bool) (cache : Nat) (sq_enabled : Bool) (file : Option (List Tok)) : Database :=
  let sq0 : Option ScalarQuantizer := if sq_enabled then some ⟨dim, [], []⟩ else none
  let h : HNSW := ⟨⟨dim, [], [], []⟩, [], -1, M, efC, efS, metric, sq0, []⟩
  let db : Database := ⟨path, h, read_only, cache⟩
  if read_only then db.load file else db

/-- An operation of a database session (the level of each insert makes
the RNG draw explicit). -/
inductive DbOp where
  | ins (v : Vec) (m : Metadata) (lvl : Nat)
  | del (id : Nat)
  | save
deriving DecidableEq

def applyOp (cos : Vec → Vec → ℚ) (db : Database) : DbOp → Database
  | .ins v m lvl => (Database.insert cos db v m lvl).2
  | .del id => (Database.delete_vector db id).2
  | .save => (Database.save db .FULL).2

def runOps (cos : Vec → Vec → ℚ) : Database → List DbOp → Database
  | db, [] => db
  | db, op :: rest => runOps cos (applyOp cos db op) rest

/-- Sequences whose deletes target existing node ids and whose inserts
do not overflow the 32-bit id space. -/
def validSeq (cos : Vec → Vec → ℚ) : Database → List DbOp → Bool
  | _, [] => true
  | db, .ins v m lvl :: rest =>
    decide (db.hnsw.nodes.length < 2 ^ 32) && validSeq cos (applyOp cos db (.ins v m lvl)) rest
  | db, .del id :: rest =>
    decide (id < db.hnsw.nodes.length) && validSeq cos (applyOp cos db (.del id)) rest
  | db, .save :: rest => validSeq cos (applyOp cos db .save) rest

/-- Maximum max_layer over the non-deleted nodes, folded from `m`
(`-1` when there are none). -/
def liveMaxFrom (del : List Nat) : Int → List Node → Int
  | m, [] => m
  | m, n :: ns => liveMaxFrom del (if n.id ∈ del then m else max m (n.max_layer : Int)) ns

def liveMax (s : HNSW) : Int := liveMaxFrom s.deleted_nodes (-1) s.nodes

/-- The insert/delete-invariant part of a node: its id and level. -/
def nodeSig (n : Node) : Nat × Nat := (n.id, n.max_layer)

/-- The entry-point invariant of the spec (section 3, invariant 5): no
entry point exactly when every node is deleted; otherwise the entry point
is a live node of maximal max_layer among live nodes. -/
def entryInv (s : HNSW) : Prop :=
  (s.entry_point_id = -1 → ∀ n ∈ s.nodes, n.id ∈ s.deleted_nodes) ∧
  (s.entry_point_id ≠ -1 → ∃ n ∈ s.nodes, (n.id : Int) = s.entry_point_id ∧
      n.id ∉ s.deleted_nodes ∧ (n.max_layer : Int) = liveMax s)

/-- Structural well-formedness maintained by insert/delete sequences:
the i-th node has id i, storage and node counts agree, deleted ids are
in range, node count fits the id type, and the entry invariant holds. -/
def wfState (s : HNSW) : Prop :=
  s.nodes.map Node.id = List.range s.nodes.length ∧
  s.vector_storage.vectors.length = s.nodes.length ∧
  (∀ d ∈ s.deleted_nodes, d < s.nodes.length) ∧
  s.nodes.length ≤ 2 ^ 32 ∧
  entryInv s

/-- Strictly key-sorted metadata: the canonical form of any std::map. -/
abbrev MetaCanon (m : Metadata) : Prop := List.Pairwise (fun a b => a.1 < b.1) m

/-- Consistency of an attached quantizer: trained, with bounds arrays of
the quantizer's dimension. -/
def sqWf : Option ScalarQuantizer → Bool
  | some q => (q.mins.length == q.original_dim) && (q.maxs.length == q.original_dim) &&
      q.is_trained
  | none => true

/-- States every C++ run produces: node neighbor arrays sized
max_layer+1, vectors of the declared dimension, aligned metadata,
canonical maps, duplicate-free deleted list, and a trained quantizer of
consistent dimension whenever one is attached. -/
def saveWf (db : Database) : Prop :=
  (∀ n ∈ db.hnsw.nodes, n.neighbors.length = n.max_layer + 1) ∧
  (∀ v ∈ db.hnsw.vector_storage.vectors,
      v.length = db.hnsw.vector_storage.vector_dimension) ∧
  db.hnsw.vector_storage.metadata.length = db.hnsw.vector_storage.vectors.length ∧
  (∀ m ∈ db.hnsw.vector_storage.metadata, MetaCanon m) ∧
  db.hnsw.deleted_nodes.Nodup ∧
  sqWf db.hnsw.sq = true

/-- A fixed stand-in for the abstract cosine kernel in concrete runs. -/
def zeroDist : Vec → Vec → ℚ := fun _ _ => 0

/-- A one-node index (dim 1, vector [0], efSearch 1, M 2). -/
def oneNodeIdx : HNSW :=
  ⟨⟨1, [[0]], [[]], []⟩, [⟨0, 0, [[]]⟩], 0, 2, 10, 1, .L2, none, []⟩

/-- A two-node graph whose only live node (id 1) is reachable solely
through the tombstoned node 0. -/
def tombEntryIdx : HNSW :=
  ⟨⟨1, [[0], [0]], [[], []], []⟩, [⟨0, 0, [[1]]⟩, ⟨1, 0, [[0]]⟩], 0, 2, 10, 10, .L2, none, [0]⟩

/-- An empty dimension-2 index. -/
def dim2Idx : HNSW :=
  ⟨⟨2, [], [], []⟩, [], -1, 2, 10, 10, .L2, none, []⟩

/-- A read-only database over a missing file. -/
def roDb : Database := mkDatabase "db" 1 2 10 10 .L2 true 0 false none

/-- Insert one vector, then delete it (a fully tombstoned index), in a
writable dimension-1 database. -/
def delAllDb : Database :=
  runOps zeroDist (mkDatabase "db" 1 2 10 10 .L2 false 0 false none)
    [.ins [0] [] 0, .del 0]

/-- `delAllDb` saved and loaded back. -/
def delAllLoaded : Database := delAllDb.load (some (saveToks delAllDb))

/-- Four identical vectors inserted at level 0 under the inner-product
metric with M = 2: every pairwise distance is -4, below the pruning
sentinel -1. -/
def ipRun : Database :=
  runOps zeroDist (mkDatabase "db" 1 2 10 10 .IP false 0 false none)
    [.ins [2] [] 0, .ins [2] [] 0, .ins [2] [] 0, .ins [2] [] 0]

/-- Insert one vector, mark_deleted the not-yet-assigned id 1 (inserted
into the deleted set without any validity check), then insert a second
vector at level 1: the insert assigns it id 1 and promotes the
already-tombstoned node to entry point. -/
def delFutureDb : Database :=
  runOps zeroDist (mkDatabase "db" 1 2 10 10 .L2 false 0 false none)
    [.ins [0] [] 0, .del 1, .ins [1] [] 1]

/-- A database with quantization enabled but never trained. -/
def sqUntrainedDb : Database :=
  ⟨"db", ⟨⟨1, [], [], []⟩, [], -1, 2, 10, 10, .L2, some ⟨1, [], []⟩, []⟩, false, 0⟩

/-- A populated database with a trained quantizer, one node, metadata and
a tombstone, for the round-trip witness. -/
def rtDb : Database :=
  ⟨"db", ⟨⟨1, [[1]], [[("k", "v")]], [[255]]⟩, [⟨0, 0, [[]]⟩], 0, 2, 10, 10, .L2,
    some ⟨1, [0], [1]⟩, [0]⟩, false, 0⟩

/-! ### Theorems -/

set_option maxRecDepth 40000

/-- Claim C4: on a read-only database every mutator (insert,
update_vector, delete_vector, rebuild_index, save) fails with
ReadOnlyViolation and returns the database unchanged, while query
returns its result with the database unchanged. -/
theorem read_only_guards (cos : Vec → Vec → ℚ) (db : Database) (v : Vec) (m : Metadata)
    (lvl : Nat) (id : Nat) (q : Vec) (k : Int) (filter : Option (Metadata → Bool))
    (inc : List Include) (lvls : Nat → Nat) (sync : SyncMode)
    (h : db.read_only = true) :
    Database.insert cos db v m lvl = (.error .ReadOnlyViolation, db) ∧
    Database.update_vector cos db id v m lvl = (.error .ReadOnlyViolation, db) ∧
    Database.delete_vector db id = (.error .ReadOnlyViolation, db) ∧
    Database.rebuild_index cos db lvls = (.error .ReadOnlyViolation, db) ∧
    Database.save db sync = (.error .ReadOnlyViolation, db) ∧
    (Database.query cos db q k filter inc).2 = db := by
  refine ⟨?_, ?_, ?_, ?_, ?_, ?_⟩ <;>
    simp [Database.insert, Database.update_vector, Database.delete_vector,
      Database.rebuild_index, Database.save, Database.query, h]

/-- Claim C4 witness: the guards at a concrete read-only database. -/
theorem read_only_guards_witness :
    Database.insert zeroDist roDb [0] [] 0 = (.error .ReadOnlyViolation, roDb) ∧
    Database.update_vector zeroDist roDb 0 [0] [] 0 = (.error .ReadOnlyViolation, roDb) ∧
    Database.delete_vector roDb 0 = (.error .ReadOnlyViolation, roDb) ∧
    Database.rebuild_index zeroDist roDb (fun _ => 0) = (.error .ReadOnlyViolation, roDb) ∧
    Database.save roDb .FULL = (.error .ReadOnlyViolation, roDb) ∧
    (Database.query zeroDist roDb [0] 1 none [Include.ID]).2 = roDb :=
  read_only_guards zeroDist roDb [0] [] 0 0 [0] 1 none [Include.ID] (fun _ => 0) .FULL
    (by decide)

/-- Claim C5: inserting a vector whose length differs from the index
dimension fails with DimensionMismatch and returns the state exactly as
it was: no vector, metadata entry or node is appended and the entry
point is unchanged. -/
theorem insert_dimension_mismatch (cos : Vec → Vec → ℚ) (s : HNSW) (v : Vec) (m : Metadata)
    (lvl : Nat) (h : v.length ≠ s.vector_storage.vector_dimension) :
    HNSW.insert cos s v m lvl = (.error .DimensionMismatch, s) := by
  simp [HNSW.insert, VectorStorage.add_vector, h]

/-- Claim C5 witness: a 3-component vector against a dimension-2 index. -/
theorem insert_dimension_mismatch_witness :
    HNSW.insert zeroDist dim2Idx [1, 2, 3] [] 0 = (.error .DimensionMismatch, dim2Idx) :=
  insert_dimension_mismatch zeroDist dim2Idx [1, 2, 3] [] 0 (by decide)

/-- Claim C9: on an untrained quantizer (empty mins) encode and decode
fail with QuantizerNotTrained, and training on an empty collection is a
no-op that leaves the quantizer untrained. -/
theorem quantizer_untrained_behavior (q : ScalarQuantizer) (v : Vec) (b : List Nat)
    (h : q.mins = []) :
    q.encode v = .error .QuantizerNotTrained ∧
    q.decode b = .error .QuantizerNotTrained ∧
    q.train [] = q ∧
    (q.train []).is_trained = false := by
  refine ⟨?_, ?_, rfl, ?_⟩ <;>
    simp [ScalarQuantizer.encode, ScalarQuantizer.decode, ScalarQuantizer.train,
      ScalarQuantizer.is_trained, h]

/-- Claim C9 witness: a concrete untrained dimension-2 quantizer. -/
theorem quantizer_untrained_behavior_witness :
    ScalarQuantizer.encode ⟨2, [], []⟩ [1, 2] = .error .QuantizerNotTrained ∧
    ScalarQuantizer.decode ⟨2, [], []⟩ [3, 4] = .error .QuantizerNotTrained ∧
    ScalarQuantizer.train ⟨2, [], []⟩ [] = ⟨2, [], []⟩ ∧
    (ScalarQuantizer.train ⟨2, [], []⟩ []).is_trained = false :=
  quantizer_untrained_behavior ⟨2, [], []⟩ [1, 2] [3, 4] rfl

/-- Claim C10: constructing a read-only database over a missing (or
unopenable) file raises no error and yields an empty index: no nodes, no
vectors, an empty deleted set, entry point none (-1), and query returns
the empty list. -/
theorem read_only_missing_file_empty (path : String) (dim : Nat) (M efC efS : Int)
    (metric : DistanceMetric) (cache : Nat) (sqe : Bool) (cos : Vec → Vec → ℚ) (q : Vec)
    (k : Int) (filter : Option (Metadata → Bool)) (inc : List Include) :
    (mkDatabase path dim M efC efS metric true cache sqe none).hnsw.nodes = [] ∧
    (mkDatabase path dim M efC efS metric true cache sqe none).hnsw.vector_storage.vectors = [] ∧
    (mkDatabase path dim M efC efS metric true cache sqe none).hnsw.deleted_nodes = [] ∧
    (mkDatabase path dim M efC efS metric true cache sqe none).hnsw.entry_point_id = -1 ∧
    (Database.query cos (mkDatabase path dim M efC efS metric true cache sqe none)
      q k filter inc).1 = [] := by
  refine ⟨rfl, rfl, rfl, rfl, ?_⟩
  simp [mkDatabase, Database.load, Database.query, HNSW.k_nearest_neighbors]

theorem searchLoop_nil_cands (cos : Vec → Vec → ℚ) (s : HNSW) (q : Vec) (ef : Int)
    (layer : Nat) (filter : Option (Metadata → Bool)) (fuel : Nat) (st : SearchSt)
    (h : st.cands = []) :
    searchLoop cos s q ef layer filter fuel st = st.results := by
  cases fuel with
  | zero => rfl
  | succ n => simp only [searchLoop, h]

/-- Shared helper: search_layer from a tombstoned entry point returns
the empty list, whatever the fuel, filter or layer: the entry is only
marked visited, both queues start empty, and the loop never runs. -/
theorem search_layer_deleted_nil (cos : Vec → Vec → ℚ) (s : HNSW) (q : Vec) (ep : Nat)
    (ef : Int) (layer : Nat) (filter : Option (Metadata → Bool))
    (h : ep ∈ s.deleted_nodes) :
    HNSW.search_layer cos s q ep ef layer filter = [] := by
  unfold HNSW.search_layer searchInit
  rw [if_pos h, searchLoop_nil_cands cos s q ef layer filter _ _ rfl]
  rfl

theorem insDesc_ne_nil (x : QEntry) (l : List QEntry) : insDesc x l ≠ [] := by
  cases l with
  | nil => simp [insDesc]
  | cons y ys => unfold insDesc; split <;> simp

theorem trimQ_ne_nil (ef : Int) (hef : 1 ≤ asSize ef) :
    ∀ l : List QEntry, l ≠ [] → trimQ ef l ≠ [] := by
  intro l
  induction l with
  | nil => intro h; exact absurd rfl h
  | cons x xs ih =>
    intro _
    unfold trimQ
    split
    · rename_i hgt
      have hlen : asSize ef < (x :: xs).length := by
        simpa [sizeGt] using hgt
      have : xs ≠ [] := by
        cases xs with
        | nil => simp at hlen; omega
        | cons a b => simp
      exact ih this
    · simp

theorem visitNeighbor_results_ne_nil (cos : Vec → Vec → ℚ) (s : HNSW) (q : Vec) (ef : Int)
    (filter : Option (Metadata → Bool)) (hef : 1 ≤ asSize ef) (st : SearchSt) (n : Nat)
    (h : st.results ≠ []) :
    (visitNeighbor cos s q ef filter st n).results ≠ [] := by
  unfold visitNeighbor
  split
  · exact h
  · split
    · exact h
    · split
      · show trimQ ef _ ≠ []
        split
        · exact trimQ_ne_nil ef hef _ (insDesc_ne_nil _ _)
        · exact trimQ_ne_nil ef hef _ h
      · exact h

theorem foldl_visit_results_ne_nil (cos : Vec → Vec → ℚ) (s : HNSW) (q : Vec) (ef : Int)
    (filter : Option (Metadata → Bool)) (hef : 1 ≤ asSize ef) :
    ∀ (lst : List Nat) (st : SearchSt), st.results ≠ [] →
      (lst.foldl (visitNeighbor cos s q ef filter) st).results ≠ [] := by
  intro lst
  induction lst with
  | nil => intro st h; exact h
  | cons a l ih =>
    intro st h
    exact ih _ (visitNeighbor_results_ne_nil cos s q ef filter hef st a h)

theorem searchLoop_ne_nil (cos : Vec → Vec → ℚ) (s : HNSW) (q : Vec) (ef : Int)
    (layer : Nat) (filter : Option (Metadata → Bool)) (hef : 1 ≤ asSize ef) :
    ∀ (fuel : Nat) (st : SearchSt), st.results ≠ [] →
      searchLoop cos s q ef layer filter fuel st ≠ [] := by
  intro fuel
  induction fuel with
  | zero => intro st h; exact h
  | succ n ih =>
    rintro ⟨cands, results, visited⟩ h
    cases cands with
    | nil => exact h
    | cons c rest =>
      simp only [searchLoop]
      split
      · exact h
      · exact ih _ (foldl_visit_results_ne_nil cos s q ef filter hef _ _ h)

/-- Shared helper: with no filter and a live entry point, search_layer
never comes back empty (the entry itself is seeded into the results and
the result queue never drains below one element when ef ≥ 1). -/
theorem search_layer_live_ne_nil (cos : Vec → Vec → ℚ) (s : HNSW) (q : Vec) (ep : Nat)
    (ef : Int) (layer : Nat) (hef : 1 ≤ asSize ef) (h : ep ∉ s.deleted_nodes) :
    HNSW.search_layer cos s q ep ef layer none ≠ [] := by
  unfold HNSW.search_layer searchInit
  rw [if_neg h]
  intro hcontra
  rw [List.map_eq_nil_iff, List.reverse_eq_nil_iff] at hcontra
  exact searchLoop_ne_nil cos s q ef layer none hef (totalAdj s + 2) _
    (by simp [filterOk]) hcontra

theorem asSize_one : asSize 1 = 1 := by decide

/-- Shared helper: the keep-going descent started from a tombstoned
entry point never moves (every search along the way is empty). -/
theorem descendKeep_deleted (cos : Vec → Vec → ℚ) (s : HNSW) (q : Vec) (ls : List Nat)
    (ep : Nat) (h : ep ∈ s.deleted_nodes) :
    descendKeep cos s q none ls ep = ep := by
  induction ls with
  | nil => rfl
  | cons l ls ih =>
    unfold descendKeep
    rw [search_layer_deleted_nil cos s q ep 1 l none h]
    exact ih

/-- Claim C8: during insertion's descent from the top layer down to
new_layer + 1, an empty search result leaves the entry point unchanged
and the final entry point is exactly that of the descent that keeps
going through the remaining layers (the spec's formulation): the code's
`break` is unobservable because with no filter a search is empty only
from a tombstoned entry, which then stays tombstoned for every deeper
layer. -/
theorem insert_descent_empty_keeps_entry (cos : Vec → Vec → ℚ) (s : HNSW) (q : Vec)
    (ls : List Nat) (ep : Nat) :
    descendFold cos s q ls ep = descendKeep cos s q none ls ep := by
  induction ls generalizing ep with
  | nil => rfl
  | cons l ls ih =>
    unfold descendFold descendKeep
    cases hsl : HNSW.search_layer cos s q ep 1 l none with
    | nil =>
      have hd : ep ∈ s.deleted_nodes := by
        by_contra hnd
        exact search_layer_live_ne_nil cos s q ep 1 l (le_of_eq asSize_one.symm) hnd hsl
      simp only [List.headD]
      exact (descendKeep_deleted cos s q ls ep hd).symm
    | cons x xs =>
      simp only [List.headD]
      exact ih x

/-- Claim C2 (corrected): when the entry point given to search_layer is
tombstoned it is NOT considered for traversal expansion; the candidate
queue starts empty, its neighbors are never examined, and search_layer
returns the empty list, so live nodes reachable only through a
tombstoned entry point are unreachable. -/
theorem search_layer_tombstoned_entry_empty (cos : Vec → Vec → ℚ) (s : HNSW) (q : Vec)
    (ep : Nat) (ef : Int) (layer : Nat) (filter : Option (Metadata → Bool))
    (h : ep ∈ s.deleted_nodes) :
    HNSW.search_layer cos s q ep ef layer filter = [] :=
  search_layer_deleted_nil cos s q ep ef layer filter h

/-- Claim C2 witness: the empty result at the concrete two-node graph. -/
theorem search_layer_tombstoned_entry_empty_witness :
    HNSW.search_layer zeroDist tombEntryIdx [0] 0 10 0 none = [] :=
  search_layer_tombstoned_entry_empty zeroDist tombEntryIdx [0] 0 10 0 none (by decide)

/-- Claim C2 counterexample: in a two-node graph whose only live node
(id 1, linked both ways with node 0) is reachable solely through the
tombstoned entry point 0, search_layer returns the empty list rather
than the live node: the claim that a tombstoned entry point is still
expanded is false on the code. -/
theorem search_layer_tombstoned_entry_cex :
    HNSW.search_layer zeroDist tombEntryIdx [0] 0 10 0 none = [] ∧
    0 ∈ tombEntryIdx.deleted_nodes ∧ 1 ∉ tombEntryIdx.deleted_nodes ∧
    neighborsAt tombEntryIdx 0 0 = [1] ∧ neighborsAt tombEntryIdx 1 0 = [0] := by
  refine ⟨?_, by decide, by decide, by decide, by decide⟩
  decide

theorem asSize_le_toNat (k : Int) (hk : 0 ≤ k) : asSize k ≤ k.toNat := by
  unfold asSize
  apply Int.toNat_le_toNat
  have := Int.emod_lt_of_pos k (b := 2 ^ 64) (by positivity)
  omega

theorem skim_no_tombstones (cos : Vec → Vec → ℚ) (s : HNSW) (q : Vec) (k : Int)
    (inc : List Include) :
    ∀ (ids : List Nat) (acc : List QueryResult),
      (∀ r ∈ acc, r.id ∉ s.deleted_nodes) →
      ∀ r ∈ skim cos s q k inc ids acc, r.id ∉ s.deleted_nodes := by
  intro ids
  induction ids with
  | nil => intro acc hacc; simpa [skim] using hacc
  | cons id rest ih =>
    intro acc hacc
    unfold skim
    split
    · exact ih acc hacc
    · split
      · exact hacc
      · rename_i hdel _
        apply ih
        intro r hr
        rcases List.mem_append.mp hr with h1 | h1
        · exact hacc r h1
        · rw [List.mem_singleton.mp h1]
          exact hdel

theorem skim_length_le (cos : Vec → Vec → ℚ) (s : HNSW) (q : Vec) (inc : List Include)
    (k : Int) (hk : 0 ≤ k) :
    ∀ (ids : List Nat) (acc : List QueryResult), acc.length ≤ k.toNat →
      (skim cos s q k inc ids acc).length ≤ k.toNat := by
  intro ids
  induction ids with
  | nil => intro acc h; simpa [skim] using h
  | cons id rest ih =>
    intro acc h
    unfold skim
    split
    · exact ih acc h
    · split
      · exact h
      · rename_i hge
        have hlt : acc.length < asSize k := by
          by_contra hcon
          exact hge (by simpa [sizeGe] using Nat.le_of_not_lt hcon)
        have h2 := asSize_le_toNat k hk
        apply ih
        simp only [List.length_append, List.length_singleton]
        omega

/-- Claim C1 (amended): for every index state, query, filter, include
set and NON-NEGATIVE k, k_nearest_neighbors returns at most k results
and no returned result has a tombstoned id.  (For negative k the
`final_results.size() >= k` guard compares a size_t with a negative int
converted to a huge unsigned value and never fires, so the at-most-k
half of the original claim fails; the no-tombstone half holds for all k.) -/
theorem knn_at_most_k_and_no_tombstones (cos : Vec → Vec → ℚ) (s : HNSW) (q : Vec)
    (filter : Option (Metadata → Bool)) (inc : List Include) (k : Int) (hk : 0 ≤ k) :
    (HNSW.k_nearest_neighbors cos s q k filter inc).length ≤ k.toNat ∧
    ∀ r ∈ HNSW.k_nearest_neighbors cos s q k filter inc, r.id ∉ s.deleted_nodes := by
  unfold HNSW.k_nearest_neighbors
  split
  · simp
  · constructor
    · exact skim_length_le cos s q inc k hk _ [] (by simp)
    · exact skim_no_tombstones cos s q k inc _ [] (by simp)

/-- Claim C1 witness: the bound and tombstone-freeness at a concrete
one-node index with k = 1. -/
theorem knn_at_most_k_and_no_tombstones_witness :
    (HNSW.k_nearest_neighbors zeroDist oneNodeIdx [0] 1 none [Include.ID]).length ≤
      (1 : Int).toNat ∧
    ∀ r ∈ HNSW.k_nearest_neighbors zeroDist oneNodeIdx [0] 1 none [Include.ID],
      r.id ∉ oneNodeIdx.deleted_nodes :=
  knn_at_most_k_and_no_tombstones zeroDist oneNodeIdx [0] none [Include.ID] 1 (by decide)

/-- Claim C1 counterexample: for the integer k = -1 the claim "returns at
most k results" fails: on a one-node index the query returns one result,
because `final_results.size() >= k` converts -1 to a huge size_t and the
break never fires. -/
theorem knn_negative_k_cex :
    ¬ (((HNSW.k_nearest_neighbors zeroDist oneNodeIdx [0] (-1) none
      [Include.ID]).length : Int) ≤ -1) := by
  decide

/-- Claim C6 (code bug evaluation): after inserting the vector [2] four
times at level 0 under the IP metric with M = 2, node 0's layer-0
neighbor list holds 3 > M entries: every eviction candidate sits at
distance -4 ≤ -1, so the pruning scan, seeded with the sentinel
`max_dist = -1.0`, never finds an index to erase and the bound M is
violated. -/
theorem neighbor_bound_violation_ip :
    ipRun.hnsw.M = 2 ∧ (getNodeAt ipRun.hnsw 0).max_layer = 0 ∧
    (getNodeAt ipRun.hnsw 0).neighbors.getD 0 [] = [1, 2, 3] := by
  decide

theorem getD_eq_getElem (l : List α) (d : α) :
    ∀ (i : Nat) (h : i < l.length), l.getD i d = l[i] := by
  induction l with
  | nil => intro i h; simp at h
  | cons x xs ih =>
    intro i h
    cases i with
    | zero => rfl
    | succ j => simpa [List.getD_cons_succ] using ih j (Nat.lt_of_succ_lt_succ h)

theorem getD_mem (l : List α) (i : Nat) (d : α) (h : i < l.length) : l.getD i d ∈ l := by
  rw [getD_eq_getElem l d i h]
  exact List.getElem_mem h

theorem getD_append_left (l1 l2 : List α) (d : α) :
    ∀ (i : Nat), i < l1.length → (l1 ++ l2).getD i d = l1.getD i d := by
  induction l1 with
  | nil => intro i h; simp at h
  | cons x xs ih =>
    intro i h
    cases i with
    | zero => rfl
    | succ j => simpa [List.getD_cons_succ] using ih j (Nat.lt_of_succ_lt_succ h)

theorem getD_append_last (l : List α) (x : α) (d : α) :
    (l ++ [x]).getD l.length d = x := by
  induction l with
  | nil => rfl
  | cons y ys ih => simp [List.getD_cons_succ, ih]

theorem map_id_range_getD (ns : List Node) (h : ns.map Node.id = List.range ns.length) :
    ∀ n ∈ ns, ∀ d, ns.getD n.id d = n := by
  intro n hn d
  obtain ⟨i, hi, rfl⟩ := List.mem_iff_getElem.mp hn
  have hid : ns[i].id = i := by
    have h1 := congrArg (fun l => l[i]?) h
    simp [List.getElem?_eq_getElem hi, hi] at h1
    exact h1
  rw [hid]
  exact getD_eq_getElem ns d i hi

theorem modifyAt_map_eq (g : α → β) (f : α → α) :
    ∀ (l : List α) (i : Nat), (∀ a, g (f a) = g a) → (modifyAt l i f).map g = l.map g := by
  intro l
  induction l with
  | nil => intro i _; rfl
  | cons x xs ih =>
    intro i hgf
    cases i with
    | zero => simp [modifyAt, hgf]
    | succ j => simp [modifyAt, ih j hgf]

theorem map_sig_getD (ns1 ns2 : List Node) (h : ns1.map nodeSig = ns2.map nodeSig)
    (d : Node) :
    ∀ (i : Nat), i < ns1.length →
      (ns1.getD i d).id = (ns2.getD i d).id ∧
      (ns1.getD i d).max_layer = (ns2.getD i d).max_layer := by
  induction ns1 generalizing ns2 with
  | nil => intro i hi; simp at hi
  | cons x xs ih =>
    intro i hi
    cases ns2 with
    | nil => simp at h
    | cons y ys =>
      simp only [List.map_cons, List.cons.injEq] at h
      have hxy : x.id = y.id ∧ x.max_layer = y.max_layer := by
        have := h.1
        simp only [nodeSig, Prod.mk.injEq] at this
        exact this
      cases i with
      | zero => exact hxy
      | succ j =>
        simpa [List.getD_cons_succ] using ih ys h.2 j (Nat.lt_of_succ_lt_succ hi)

theorem map_id_of_sig (ns1 ns2 : List Node) (h : ns1.map nodeSig = ns2.map nodeSig) :
    ns1.map Node.id = ns2.map Node.id := by
  have h1 := congrArg (List.map Prod.fst) h
  simpa [List.map_map, Function.comp, nodeSig] using h1

theorem length_of_sig (ns1 ns2 : List Node) (h : ns1.map nodeSig = ns2.map nodeSig) :
    ns1.length = ns2.length := by
  have := congrArg List.length h
  simpa using this

theorem pruneOne_sig (cos : Vec → Vec → ℚ) (s : HNSW) (nb layer : Nat) :
    (pruneOne cos s nb layer).nodes.map nodeSig = s.nodes.map nodeSig ∧
    (pruneOne cos s nb layer).entry_point_id = s.entry_point_id ∧
    (pruneOne cos s nb layer).deleted_nodes = s.deleted_nodes ∧
    (pruneOne cos s nb layer).vector_storage = s.vector_storage := by
  unfold pruneOne
  split
  · refine ⟨?_, rfl, rfl, rfl⟩
    exact modifyAt_map_eq nodeSig _ _ _ (fun a => rfl)
  · exact ⟨rfl, rfl, rfl, rfl⟩

theorem connectStep_sig (new_id layer nb : Nat) (s : HNSW) :
    (connectStep new_id layer nb s).nodes.map nodeSig = s.nodes.map nodeSig ∧
    (connectStep new_id layer nb s).entry_point_id = s.entry_point_id ∧
    (connectStep new_id layer nb s).deleted_nodes = s.deleted_nodes ∧
    (connectStep new_id layer nb s).vector_storage = s.vector_storage := by
  refine ⟨?_, rfl, rfl, rfl⟩
  simp only [connectStep]
  exact (modifyAt_map_eq nodeSig (pushNb layer new_id) _ _ (fun a => rfl)).trans
    (modifyAt_map_eq nodeSig (pushNb layer nb) _ _ (fun a => rfl))

theorem connectChoice_sig (cos : Vec → Vec → ℚ) (new_id layer nb : Nat) (s : HNSW) :
    (connectChoice cos new_id layer nb s).nodes.map nodeSig = s.nodes.map nodeSig ∧
    (connectChoice cos new_id layer nb s).entry_point_id = s.entry_point_id ∧
    (connectChoice cos new_id layer nb s).deleted_nodes = s.deleted_nodes ∧
    (connectChoice cos new_id layer nb s).vector_storage = s.vector_storage := by
  unfold connectChoice
  split
  · obtain ⟨p1, p2, p3, p4⟩ := pruneOne_sig cos (connectStep new_id layer nb s) nb layer
    obtain ⟨c1, c2, c3, c4⟩ := connectStep_sig new_id layer nb s
    exact ⟨p1.trans c1, p2.trans c2, p3.trans c3, p4.trans c4⟩
  · exact connectStep_sig new_id layer nb s

theorem connectNeighbors_sig (cos : Vec → Vec → ℚ) (new_id layer : Nat) :
    ∀ (lst : List Nat) (s : HNSW),
      (connectNeighbors cos new_id layer s lst).nodes.map nodeSig = s.nodes.map nodeSig ∧
      (connectNeighbors cos new_id layer s lst).entry_point_id = s.entry_point_id ∧
      (connectNeighbors cos new_id layer s lst).deleted_nodes = s.deleted_nodes ∧
      (connectNeighbors cos new_id layer s lst).vector_storage = s.vector_storage := by
  intro lst
  induction lst with
  | nil => intro s; exact ⟨rfl, rfl, rfl, rfl⟩
  | cons nb rest ih =>
    intro s
    obtain ⟨h1, h2, h3, h4⟩ := ih (connectChoice cos new_id layer nb s)
    obtain ⟨c1, c2, c3, c4⟩ := connectChoice_sig cos new_id layer nb s
    exact ⟨h1.trans c1, h2.trans c2, h3.trans c3, h4.trans c4⟩

theorem insertLayers_sig (cos : Vec → Vec → ℚ) (vec : Vec) (new_id : Nat) :
    ∀ (ls : List Nat) (s : HNSW) (ep : Nat),
      (insertLayers cos vec new_id ls s ep).1.nodes.map nodeSig = s.nodes.map nodeSig ∧
      (insertLayers cos vec new_id ls s ep).1.entry_point_id = s.entry_point_id ∧
      (insertLayers cos vec new_id ls s ep).1.deleted_nodes = s.deleted_nodes ∧
      (insertLayers cos vec new_id ls s ep).1.vector_storage = s.vector_storage := by
  intro ls
  induction ls with
  | nil => intro s ep; exact ⟨rfl, rfl, rfl, rfl⟩
  | cons l rest ih =>
    intro s ep
    unfold insertLayers
    cases hsl : HNSW.search_layer cos s vec ep s.efConstruction l none with
    | nil => exact ih s ep
    | cons f fs =>
      obtain ⟨h1, h2, h3, h4⟩ := ih (connectNeighbors cos new_id l s ((f :: fs).take (asSize s.M))) f
      obtain ⟨c1, c2, c3, c4⟩ := connectNeighbors_sig cos new_id l ((f :: fs).take (asSize s.M)) s
      exact ⟨h1.trans c1, h2.trans c2, h3.trans c3, h4.trans c4⟩

theorem liveMaxFrom_le (del : List Nat) :
    ∀ (ns : List Node) (m : Int), m ≤ liveMaxFrom del m ns := by
  intro ns
  induction ns with
  | nil => intro m; exact le_refl m
  | cons n ns ih =>
    intro m
    unfold liveMaxFrom
    split
    · exact ih m
    · exact le_trans (le_max_left _ _) (ih _)

theorem liveMaxFrom_all_deleted (del : List Nat) :
    ∀ (ns : List Node) (m : Int), (∀ n ∈ ns, n.id ∈ del) → liveMaxFrom del m ns = m := by
  intro ns
  induction ns with
  | nil => intro m _; rfl
  | cons n ns ih =>
    intro m h
    unfold liveMaxFrom
    rw [if_pos (h n (by simp))]
    exact ih m (fun x hx => h x (by simp [hx]))

theorem liveMaxFrom_mono (del del' : List Nat) (hsub : ∀ x, x ∈ del → x ∈ del') :
    ∀ (ns : List Node) (m m' : Int), m' ≤ m → liveMaxFrom del' m' ns ≤ liveMaxFrom del m ns := by
  intro ns
  induction ns with
  | nil => intro m m' h; exact h
  | cons n ns ih =>
    intro m m' h
    unfold liveMaxFrom
    by_cases hd : n.id ∈ del
    · rw [if_pos hd, if_pos (hsub _ hd)]
      exact ih m m' h
    · rw [if_neg hd]
      by_cases hd' : n.id ∈ del'
      · rw [if_pos hd']
        exact ih _ _ (le_trans h (le_max_left _ _))
      · rw [if_neg hd']
        exact ih _ _ (max_le_max h (le_refl _))

theorem liveMaxFrom_ge_mem (del : List Nat) :
    ∀ (ns : List Node) (m : Int) (n : Node), n ∈ ns → n.id ∉ del →
      (n.max_layer : Int) ≤ liveMaxFrom del m ns := by
  intro ns
  induction ns with
  | nil => intro m n h; simp at h
  | cons x xs ih =>
    intro m n hmem hdel
    rcases List.mem_cons.mp hmem with rfl | hmem'
    · unfold liveMaxFrom
      rw [if_neg hdel]
      exact le_trans (le_max_right _ _) (liveMaxFrom_le del xs _)
    · unfold liveMaxFrom
      split
      · exact ih m n hmem' hdel
      · exact ih _ n hmem' hdel

theorem liveMaxFrom_append (del : List Nat) :
    ∀ (ns : List Node) (m : Int) (x : Node),
      liveMaxFrom del m (ns ++ [x]) =
        if x.id ∈ del then liveMaxFrom del m ns
        else max (liveMaxFrom del m ns) (x.max_layer : Int) := by
  intro ns
  induction ns with
  | nil => intro m x; rfl
  | cons n ns ih =>
    intro m x
    simp only [List.cons_append]
    unfold liveMaxFrom
    exact ih _ x

theorem liveMaxFrom_congr (del : List Nat) :
    ∀ (ns1 ns2 : List Node), ns1.map nodeSig = ns2.map nodeSig →
      ∀ m, liveMaxFrom del m ns1 = liveMaxFrom del m ns2 := by
  intro ns1
  induction ns1 with
  | nil =>
    intro ns2 h m
    cases ns2 with
    | nil => rfl
    | cons y ys => simp at h
  | cons x xs ih =>
    intro ns2 h m
    cases ns2 with
    | nil => simp at h
    | cons y ys =>
      simp only [List.map_cons, List.cons.injEq] at h
      have hxy : x.id = y.id ∧ x.max_layer = y.max_layer := by
        have h1 := h.1
        simp only [nodeSig, Prod.mk.injEq] at h1
        exact h1
      unfold liveMaxFrom
      rw [hxy.1, hxy.2]
      exact ih ys h.2 _

theorem rescanGo_snd (del : List Nat) :
    ∀ (ns : List Node) (p : Int × Int), (rescanGo del p ns).2 = liveMaxFrom del p.2 ns := by
  intro ns
  induction ns with
  | nil => intro p; rfl
  | cons n ns ih =>
    intro p
    unfold rescanGo liveMaxFrom
    by_cases hd : n.id ∈ del
    · rw [if_pos hd, if_pos hd]
      exact ih p
    · rw [if_neg hd, if_neg hd]
      by_cases hlt : p.2 < (n.max_layer : Int)
      · rw [if_pos hlt, ih ((n.id : Int), (n.max_layer : Int))]
        congr 1
        exact (max_eq_right (le_of_lt hlt)).symm
      · rw [if_neg hlt, ih p]
        congr 1
        exact (max_eq_left (not_lt.mp hlt)).symm

theorem rescanGo_fst_nonneg (del : List Nat) :
    ∀ (ns : List Node) (p : Int × Int), 0 ≤ p.1 → 0 ≤ (rescanGo del p ns).1 := by
  intro ns
  induction ns with
  | nil => intro p h; exact h
  | cons n ns ih =>
    intro p h
    unfold rescanGo
    split
    · exact ih p h
    · split
      · exact ih _ (Int.natCast_nonneg _)
      · exact ih p h

theorem rescanGo_neg_all_deleted (del : List Nat) :
    ∀ (ns : List Node) (p : Int × Int), p.1 = -1 → p.2 = -1 →
      (rescanGo del p ns).1 = -1 → ∀ n ∈ ns, n.id ∈ del := by
  intro ns
  induction ns with
  | nil => intro p _ _ _ n h; simp at h
  | cons x xs ih =>
    intro p h1 h2 hres n hmem
    by_cases hd : x.id ∈ del
    · rcases List.mem_cons.mp hmem with rfl | hmem'
      · exact hd
      · apply ih p h1 h2 _ n hmem'
        unfold rescanGo at hres
        rw [if_pos hd] at hres
        exact hres
    · exfalso
      unfold rescanGo at hres
      rw [if_neg hd, if_pos (by
        rw [h2]
        exact lt_of_lt_of_le (by norm_num) (Int.natCast_nonneg _))] at hres
      have := rescanGo_fst_nonneg del xs ((x.id : Int), (x.max_layer : Int))
        (Int.natCast_nonneg _)
      omega

theorem rescanGo_fst_cases (del : List Nat) :
    ∀ (ns : List Node) (p : Int × Int),
      ((rescanGo del p ns).1 = p.1 ∧ (rescanGo del p ns).2 = p.2) ∨
      ∃ n ∈ ns, n.id ∉ del ∧ (n.id : Int) = (rescanGo del p ns).1 ∧
        (n.max_layer : Int) = (rescanGo del p ns).2 := by
  intro ns
  induction ns with
  | nil => intro p; exact Or.inl ⟨rfl, rfl⟩
  | cons x xs ih =>
    intro p
    unfold rescanGo
    by_cases hd : x.id ∈ del
    · rw [if_pos hd]
      rcases ih p with h | ⟨n, hn, h⟩
      · exact Or.inl h
      · exact Or.inr ⟨n, List.mem_cons_of_mem x hn, h⟩
    · rw [if_neg hd]
      by_cases hlt : p.2 < (x.max_layer : Int)
      · rw [if_pos hlt]
        rcases ih ((x.id : Int), (x.max_layer : Int)) with ⟨ha, hb⟩ | ⟨n, hn, h⟩
        · exact Or.inr ⟨x, List.mem_cons_self x xs, hd, ha.symm, hb.symm⟩
        · exact Or.inr ⟨n, List.mem_cons_of_mem x hn, h⟩
      · rw [if_neg hlt]
        rcases ih p with h | ⟨n, hn, h⟩
        · exact Or.inl h
        · exact Or.inr ⟨n, List.mem_cons_of_mem x hn, h⟩

theorem mem_delInsert (del : List Nat) (id x : Nat) :
    x ∈ delInsert del id ↔ x ∈ del ∨ x = id := by
  unfold delInsert
  split
  · rename_i hin
    constructor
    · exact Or.inl
    · rintro (h | rfl)
      · exact h
      · exact hin
  · simp [List.mem_append]

theorem mark_deleted_wf (s : HNSW) (id : Nat) (hwf : wfState s)
    (hid : id < s.nodes.length) : wfState (s.mark_deleted id) := by
  obtain ⟨hids, hlen, hdel, hbound, hinv⟩ := hwf
  have hdel' : ∀ d ∈ delInsert s.deleted_nodes id, d < s.nodes.length := by
    intro d hd
    rcases (mem_delInsert _ _ _).mp hd with h | rfl
    · exact hdel d h
    · exact hid
  unfold HNSW.mark_deleted
  split
  · refine ⟨hids, hlen, hdel', hbound, ?_, ?_⟩
    · intro hneg n hn
      exact rescanGo_neg_all_deleted (delInsert s.deleted_nodes id) s.nodes (-1, -1)
        rfl rfl hneg n hn
    · intro hne
      rcases rescanGo_fst_cases (delInsert s.deleted_nodes id) s.nodes (-1, -1) with
        ⟨ha, _⟩ | ⟨n, hn, hnd, hid2, hml⟩
      · exact absurd ha hne
      · refine ⟨n, hn, hid2, hnd, ?_⟩
        rw [hml, rescanGo_snd (delInsert s.deleted_nodes id) s.nodes (-1, -1)]
        rfl
  · rename_i hcond
    refine ⟨hids, hlen, hdel', hbound, ?_, ?_⟩
    · intro hneg n hn
      exact (mem_delInsert _ _ _).mpr (Or.inl (hinv.1 hneg n hn))
    · intro hne
      obtain ⟨n, hn, hid2, hnd, hml⟩ := hinv.2 hne
      have hne_id : n.id ≠ id := by
        intro heq
        apply hcond
        rw [← hid2, heq]
        exact Int.emod_eq_of_lt (Int.natCast_nonneg _)
          (by exact_mod_cast lt_of_lt_of_le hid hbound)
      refine ⟨n, hn, hid2, ?_, ?_⟩
      · intro hmem
        rcases (mem_delInsert _ _ _).mp hmem with h | h
        · exact hnd h
        · exact hne_id h
      · apply le_antisymm
        · exact liveMaxFrom_ge_mem _ s.nodes (-1) n hn
            (fun hmem => by
              rcases (mem_delInsert _ _ _).mp hmem with h | h
              · exact hnd h
              · exact hne_id h)
        · calc liveMaxFrom (delInsert s.deleted_nodes id) (-1) s.nodes
              ≤ liveMaxFrom s.deleted_nodes (-1) s.nodes :=
                liveMaxFrom_mono s.deleted_nodes (delInsert s.deleted_nodes id)
                  (fun x hx => (mem_delInsert _ _ _).mpr (Or.inl hx)) s.nodes (-1) (-1)
                  (le_refl _)
            _ = (n.max_layer : Int) := hml.symm

theorem add_vector_ok (sq : Option ScalarQuantizer) (st0 : VectorStorage) (v : Vec)
    (m : Metadata) (st : VectorStorage)
    (h : VectorStorage.add_vector sq st0 v m = .ok st) :
    st.vectors = st0.vectors ++ [v] ∧ st.vector_dimension = st0.vector_dimension := by
  unfold VectorStorage.add_vector at h
  split at h
  · exact absurd h (by simp)
  · simp only [Except.ok.injEq] at h
    subst h
    exact ⟨rfl, rfl⟩

theorem insertConnected_sig (cos : Vec → Vec → ℚ) (s1 : HNSW) (v : Vec) (new_id lvl : Nat) :
    (insertConnected cos s1 v new_id lvl).nodes.map nodeSig = s1.nodes.map nodeSig ∧
    (insertConnected cos s1 v new_id lvl).entry_point_id = s1.entry_point_id ∧
    (insertConnected cos s1 v new_id lvl).deleted_nodes = s1.deleted_nodes ∧
    (insertConnected cos s1 v new_id lvl).vector_storage = s1.vector_storage :=
  insertLayers_sig cos v new_id _ s1 _

theorem insert_wf (cos : Vec → Vec → ℚ) (s : HNSW) (v : Vec) (m : Metadata) (lvl : Nat)
    (hwf : wfState s) (hsz : s.nodes.length < 2 ^ 32) :
    wfState (HNSW.insert cos s v m lvl).2 := by
  obtain ⟨hids, hlen, hdel, hbound, hinv⟩ := hwf
  unfold HNSW.insert
  cases hadd : VectorStorage.add_vector s.sq s.vector_storage v m with
  | error e => exact ⟨hids, hlen, hdel, hbound, hinv⟩
  | ok st =>
    obtain ⟨hstv, _hstd⟩ := add_vector_ok s.sq s.vector_storage v m st hadd
    have hstlen : st.vectors.length = s.nodes.length + 1 := by
      rw [hstv]
      simp [hlen]
    rw [hlen]
    show wfState (insertGo cos (insertAppended s st s.nodes.length lvl) v s.nodes.length lvl)
    have hnotin : s.nodes.length ∉ s.deleted_nodes :=
      fun h => absurd (hdel _ h) (lt_irrefl _)
    set s1 := insertAppended s st s.nodes.length lvl with hs1def
    have hs1nodes : s1.nodes =
        s.nodes ++ [⟨s.nodes.length, lvl, List.replicate (lvl + 1) []⟩] := rfl
    have hs1entry : s1.entry_point_id = s.entry_point_id := rfl
    have hs1len : s1.nodes.length = s.nodes.length + 1 := by
      rw [hs1nodes]
      simp
    have hs1ids : s1.nodes.map Node.id = List.range s1.nodes.length := by
      rw [hs1nodes]
      simp [hids, List.range_succ]
    have hlm1 : liveMaxFrom s.deleted_nodes (-1) s1.nodes =
        max (liveMaxFrom s.deleted_nodes (-1) s.nodes) (lvl : Int) := by
      rw [hs1nodes, liveMaxFrom_append]
      dsimp only
      rw [if_neg hnotin]
    unfold insertGo
    split
    · rename_i hent
      have halldel : ∀ n ∈ s.nodes, n.id ∈ s.deleted_nodes := hinv.1 hent
      refine ⟨hs1ids, ?_, ?_, ?_, ?_, ?_⟩
      · show st.vectors.length = s1.nodes.length
        rw [hstlen, hs1len]
      · show ∀ d ∈ s.deleted_nodes, d < s1.nodes.length
        intro d hd
        rw [hs1len]
        exact Nat.lt_succ_of_lt (hdel d hd)
      · show s1.nodes.length ≤ 2 ^ 32
        rw [hs1len]
        omega
      · intro habs
        have h4 : (s.nodes.length : Int) = -1 := habs
        omega
      · intro _
        refine ⟨⟨s.nodes.length, lvl, List.replicate (lvl + 1) []⟩, ?_, rfl, hnotin, ?_⟩
        · show (⟨s.nodes.length, lvl, List.replicate (lvl + 1) []⟩ : Node) ∈ s1.nodes
          rw [hs1nodes]
          simp
        · show ((lvl : Nat) : Int) = liveMaxFrom s.deleted_nodes (-1) s1.nodes
          rw [hlm1, liveMaxFrom_all_deleted _ _ _ halldel]
          exact (max_eq_right (by omega)).symm
    · rename_i hent
      have hent' : s.entry_point_id ≠ -1 := hent
      obtain ⟨ne, hne_mem, hne_id, hne_live, hne_ml⟩ := hinv.2 hent'
      have hne_lt : ne.id < s.nodes.length := by
        have h1 := List.mem_map_of_mem Node.id hne_mem
        rw [hids] at h1
        exact List.mem_range.mp h1
      obtain ⟨hsig, hscent, hscdel, hscstor⟩ := insertConnected_sig cos s1 v s.nodes.length lvl
      set sc := insertConnected cos s1 v s.nodes.length lvl with hscdef
      have hsclen : sc.nodes.length = s1.nodes.length := length_of_sig _ _ hsig
      have hscids : sc.nodes.map Node.id = List.range sc.nodes.length := by
        rw [map_id_of_sig _ _ hsig, hs1ids, hsclen]
      have hscent2 : sc.entry_point_id = (ne.id : Int) := by
        rw [hscent, hs1entry, ← hne_id]
      have htn : sc.entry_point_id.toNat = ne.id := by
        rw [hscent2]
        simp
      have hne_lt1 : ne.id < sc.nodes.length := by
        rw [hsclen, hs1len]
        omega
      have hgetne : s1.nodes.getD ne.id ⟨0, 0, [[]]⟩ = ne := by
        rw [hs1nodes, getD_append_left s.nodes _ _ ne.id hne_lt]
        exact map_id_range_getD s.nodes hids ne hne_mem ⟨0, 0, [[]]⟩
      have hgetml : (getNodeAt sc sc.entry_point_id.toNat).max_layer = ne.max_layer := by
        rw [htn]
        unfold getNodeAt
        rw [(map_sig_getD sc.nodes s1.nodes hsig ⟨0, 0, [[]]⟩ ne.id hne_lt1).2, hgetne]
      have hlmsc : liveMaxFrom s.deleted_nodes (-1) sc.nodes =
          max (liveMaxFrom s.deleted_nodes (-1) s.nodes) (lvl : Int) := by
        rw [liveMaxFrom_congr s.deleted_nodes sc.nodes s1.nodes hsig (-1), hlm1]
      have hlms : liveMaxFrom s.deleted_nodes (-1) s.nodes = (ne.max_layer : Int) :=
        hne_ml.symm
      have hsclen2 : sc.vector_storage.vectors.length = sc.nodes.length := by
        rw [hscstor]
        show st.vectors.length = sc.nodes.length
        rw [hstlen, hsclen, hs1len]
      have hdel2 : ∀ d ∈ sc.deleted_nodes, d < sc.nodes.length := by
        rw [hscdel, hsclen]
        show ∀ d ∈ s.deleted_nodes, d < s1.nodes.length
        intro d hd
        rw [hs1len]
        exact Nat.lt_succ_of_lt (hdel d hd)
      have hsz2 : sc.nodes.length ≤ 2 ^ 32 := by
        rw [hsclen, hs1len]
        omega
      split
      · rename_i hcond
        rw [hgetml] at hcond
        refine ⟨hscids, hsclen2, hdel2, hsz2, ?_, ?_⟩
        · intro habs
          have h4 : (s.nodes.length : Int) = -1 := habs
          omega
        · intro _
          have hlast : s1.nodes.getD s.nodes.length ⟨0, 0, [[]]⟩ =
              ⟨s.nodes.length, lvl, List.replicate (lvl + 1) []⟩ := by
            rw [hs1nodes]
            exact getD_append_last _ _ _
          have hlen_lt : s.nodes.length < sc.nodes.length := by
            rw [hsclen, hs1len]
            omega
          have h3 := map_sig_getD sc.nodes s1.nodes hsig ⟨0, 0, [[]]⟩ s.nodes.length hlen_lt
          refine ⟨sc.nodes.getD s.nodes.length ⟨0, 0, [[]]⟩, getD_mem _ _ _ hlen_lt,
            ?_, ?_, ?_⟩
          · show ((sc.nodes.getD s.nodes.length ⟨0, 0, [[]]⟩).id : Int) =
              (s.nodes.length : Int)
            rw [h3.1, hlast]
          · show (sc.nodes.getD s.nodes.length ⟨0, 0, [[]]⟩).id ∉ sc.deleted_nodes
            rw [h3.1, hlast, hscdel]
            exact hnotin
          · show ((sc.nodes.getD s.nodes.length ⟨0, 0, [[]]⟩).max_layer : Int) =
              liveMaxFrom sc.deleted_nodes (-1) sc.nodes
            rw [h3.2, hlast, hscdel]
            show ((lvl : Nat) : Int) = liveMaxFrom s.deleted_nodes (-1) sc.nodes
            rw [hlmsc, hlms, max_eq_right (by exact_mod_cast Nat.le_of_lt hcond)]
      · rename_i hcond
        rw [hgetml] at hcond
        have hcond' : lvl ≤ ne.max_layer := Nat.le_of_not_lt hcond
        refine ⟨hscids, hsclen2, hdel2, hsz2, ?_, ?_⟩
        · intro habs
          rw [hscent2] at habs
          omega
        · intro _
          have h3 := map_sig_getD sc.nodes s1.nodes hsig ⟨0, 0, [[]]⟩ ne.id hne_lt1
          refine ⟨sc.nodes.getD ne.id ⟨0, 0, [[]]⟩, getD_mem _ _ _ hne_lt1, ?_, ?_, ?_⟩
          · show ((sc.nodes.getD ne.id ⟨0, 0, [[]]⟩).id : Int) = sc.entry_point_id
            rw [h3.1, hgetne, hscent2]
          · show (sc.nodes.getD ne.id ⟨0, 0, [[]]⟩).id ∉ sc.deleted_nodes
            rw [h3.1, hgetne, hscdel]
            exact hne_live
          · show ((sc.nodes.getD ne.id ⟨0, 0, [[]]⟩).max_layer : Int) =
              liveMaxFrom sc.deleted_nodes (-1) sc.nodes
            rw [h3.2, hgetne, hscdel]
            show (ne.max_layer : Int) = liveMaxFrom s.deleted_nodes (-1) sc.nodes
            rw [hlmsc, hlms, max_eq_left (by exact_mod_cast hcond')]

theorem applyOp_ins (cos : Vec → Vec → ℚ) (db : Database) (v : Vec) (m : Metadata)
    (lvl : Nat) (h : db.read_only = false) :
    applyOp cos db (.ins v m lvl) =
      { db with hnsw := (HNSW.insert cos db.hnsw v m lvl).2 } := by
  simp [applyOp, Database.insert, h]

theorem applyOp_del (cos : Vec → Vec → ℚ) (db : Database) (id : Nat)
    (h : db.read_only = false) :
    applyOp cos db (.del id) = { db with hnsw := db.hnsw.mark_deleted id } := by
  simp [applyOp, Database.delete_vector, h]

theorem applyOp_save (cos : Vec → Vec → ℚ) (db : Database) (h : db.read_only = false) :
    applyOp cos db .save = db := by
  simp [applyOp, Database.save, h]

theorem runOps_wf (cos : Vec → Vec → ℚ) :
    ∀ (ops : List DbOp) (db : Database), db.read_only = false → wfState db.hnsw →
      validSeq cos db ops = true →
      (runOps cos db ops).read_only = false ∧ wfState (runOps cos db ops).hnsw := by
  intro ops
  induction ops with
  | nil => intro db h1 h2 _; exact ⟨h1, h2⟩
  | cons op rest ih =>
    intro db h1 h2 hv
    cases op with
    | ins v m lvl =>
      simp only [validSeq, Bool.and_eq_true, decide_eq_true_eq] at hv
      apply ih
      · rw [applyOp_ins cos db v m lvl h1]
        exact h1
      · rw [applyOp_ins cos db v m lvl h1]
        exact insert_wf cos db.hnsw v m lvl h2 hv.1
      · exact hv.2
    | del id =>
      simp only [validSeq, Bool.and_eq_true, decide_eq_true_eq] at hv
      apply ih
      · rw [applyOp_del cos db id h1]
        exact h1
      · rw [applyOp_del cos db id h1]
        exact mark_deleted_wf db.hnsw id h2 hv.1
      · exact hv.2
    | save =>
      simp only [validSeq] at hv
      apply ih
      · rw [applyOp_save cos db h1]
        exact h1
      · rw [applyOp_save cos db h1]
        exact h2
      · exact hv

/-- Claim C3 (amended): after every sequence of insert, mark_deleted and
save operations from a fresh writable database — with each delete
addressed to an already-assigned node id and node ids not overflowing
uint32 — the entry-point invariant holds: if the entry point is set it
is a non-deleted node whose max_layer equals the maximum over all
non-deleted nodes, and if every node is deleted the entry point is
none.  Both exclusions from the original claim are failures of the
code, exhibited by the counterexample: load sets the entry point to
the LAST stored node regardless of levels and tombstones, and
mark_deleted of a not-yet-assigned id poisons a later insert that
assigns that id, promoting the already-tombstoned new node to entry
point. -/
theorem entry_inv_insert_delete_save (cos : Vec → Vec → ℚ) (path : String) (dim : Nat)
    (M efC efS : Int) (metric : DistanceMetric) (cache : Nat) (sqe : Bool)
    (ops : List DbOp)
    (h : validSeq cos (mkDatabase path dim M efC efS metric false cache sqe none) ops =
      true) :
    entryInv (runOps cos (mkDatabase path dim M efC efS metric false cache sqe none)
      ops).hnsw := by
  have h1 : (mkDatabase path dim M efC efS metric false cache sqe none).read_only =
      false := rfl
  have h2 : wfState (mkDatabase path dim M efC efS metric false cache sqe none).hnsw := by
    refine ⟨rfl, rfl, ?_, ?_, ?_, ?_⟩
    · intro d hd
      exact absurd hd (List.not_mem_nil d)
    · exact Nat.zero_le _
    · intro _ n hn
      exact absurd hn (List.not_mem_nil n)
    · intro hne
      exact absurd rfl hne
  exact (runOps_wf cos ops _ h1 h2 h).2.2.2.2.2

/-- Claim C3 witness: the invariant after a concrete insert-then-delete
sequence. -/
theorem entry_inv_insert_delete_save_witness :
    entryInv (runOps zeroDist (mkDatabase "db" 1 2 10 10 .L2 false 0 false none)
      [DbOp.ins [0] [] 0, DbOp.del 0]).hnsw :=
  entry_inv_insert_delete_save zeroDist "db" 1 2 10 10 .L2 0 false
    [DbOp.ins [0] [] 0, DbOp.del 0] (by decide)

/-- Claim C3 counterexample, exhibiting both failure modes of the
unrestricted claim.  (1) With load: insert one vector, delete it (the
entry point correctly becomes none), save, and load: the loaded index
has a node, every node is deleted, yet the entry point is NOT none —
the load constructor picked the last stored node.  (2) Without load:
mark_deleted of the not-yet-assigned id 1 inserts it into the deleted
set unchecked; the next insert assigns id 1 at level 1 and promotes
the already-tombstoned new node to entry point, so the entry point is
the deleted node 1. -/
theorem entry_inv_violation_cex :
    (delAllLoaded.hnsw.nodes ≠ [] ∧
     (∀ n ∈ delAllLoaded.hnsw.nodes, n.id ∈ delAllLoaded.hnsw.deleted_nodes) ∧
     delAllLoaded.hnsw.entry_point_id ≠ -1) ∧
    (delFutureDb.hnsw.nodes.map Node.id = [0, 1] ∧
     delFutureDb.hnsw.entry_point_id = 1 ∧
     1 ∈ delFutureDb.hnsw.deleted_nodes) := by
  decide

theorem rdN_flat (p : List Tok → Option (α × List Tok)) (enc : β → List Tok) (g : β → α) :
    ∀ (xs : List β), (∀ x ∈ xs, ∀ ts, p (enc x ++ ts) = some (g x, ts)) →
      ∀ ts, rdN p xs.length (flatList enc xs ++ ts) = some (xs.map g, ts) := by
  intro xs
  induction xs with
  | nil => intro _ ts; rfl
  | cons x xs ih =>
    intro h ts
    have hx := h x (List.mem_cons_self x xs)
    have hxs := ih (fun y hy => h y (List.mem_cons_of_mem x hy)) ts
    show rdN p (xs.length + 1) ((enc x ++ flatList enc xs) ++ ts) = _
    rw [List.append_assoc]
    simp only [rdN, hx, hxs]
    rfl

theorem flatList_singleton (f : α → β) :
    ∀ (xs : List α), flatList (fun x => [f x]) xs = xs.map f := by
  intro xs
  induction xs with
  | nil => rfl
  | cons x xs ih => simp [flatList, ih]

theorem rdN_f32 (qs : List ℚ) (ts : List Tok) :
    rdN rdF32 qs.length (qs.map Tok.f32 ++ ts) = some (qs, ts) := by
  have h := rdN_flat rdF32 (fun q => [Tok.f32 q]) (fun q => q) qs (fun x _ ts => rfl) ts
  rw [flatList_singleton] at h
  simpa using h

theorem rdN_u32 (ns : List Nat) (ts : List Tok) :
    rdN rdU32 ns.length (ns.map Tok.u32 ++ ts) = some (ns, ts) := by
  have h := rdN_flat rdU32 (fun n => [Tok.u32 n]) (fun n => n) ns (fun x _ ts => rfl) ts
  rw [flatList_singleton] at h
  simpa using h

theorem rdNbId_cast (x : Nat) (ts : List Tok) :
    rdNbId (Tok.i32 (x : Int) :: ts) = some (x, ts) := by
  simp only [rdNbId, rdI32]
  rw [if_neg (by omega : ¬ ((x : Int) < 0))]
  simp

theorem rdLayer_toks (nb : List Nat) (ts : List Tok) :
    rdLayer ((Tok.sz nb.length :: nb.map (fun (x : Nat) => Tok.i32 (x : Int))) ++ ts) =
      some (nb, ts) := by
  have h := rdN_flat rdNbId (fun (x : Nat) => [Tok.i32 (x : Int)]) (fun (x : Nat) => x) nb
    (fun x _ ts => rdNbId_cast x ts) ts
  rw [flatList_singleton] at h
  simp only [List.map_id'] at h
  simp only [rdLayer, rdSz, List.cons_append, h]

theorem range_map_getD_comp (l : List α) (d : α) (g : α → β) :
    (List.range l.length).map (fun i => g (l.getD i d)) = l.map g := by
  induction l with
  | nil => rfl
  | cons x xs ih =>
    rw [List.length_cons, List.range_succ_eq_map]
    simp only [List.map_cons, List.getD_cons_zero, List.map_map]
    congr 1

theorem range_map_getD (l : List α) (d : α) :
    (List.range l.length).map (fun i => l.getD i d) = l := by
  have h := range_map_getD_comp l d id
  simpa using h

theorem rdNode_toks (n : Node) (hn : n.neighbors.length = n.max_layer + 1)
    (ts : List Tok) : rdNode (nodeToks n ++ ts) = some (n, ts) := by
  have hlayers := rdN_flat rdLayer
    (fun l => Tok.sz (n.neighbors.getD l []).length ::
      (n.neighbors.getD l []).map (fun (x : Nat) => Tok.i32 (x : Int)))
    (fun l => n.neighbors.getD l []) (List.range (n.max_layer + 1))
    (fun l _ ts => rdLayer_toks (n.neighbors.getD l []) ts) ts
  rw [List.length_range] at hlayers
  have hrec : (List.range (n.max_layer + 1)).map (fun l => n.neighbors.getD l []) =
      n.neighbors := by
    rw [← hn]
    exact range_map_getD n.neighbors []
  rw [hrec] at hlayers
  simp only [nodeToks, List.cons_append, rdNode, rdU32, rdI32]
  rw [if_neg (by omega : ¬ ((n.max_layer : Int) < 0))]
  simp only [Int.toNat_natCast, hlayers]

theorem rdPair_toks (kv : String × String) (ts : List Tok) :
    rdPair ([Tok.sz kv.1.length, Tok.str kv.1, Tok.sz kv.2.length, Tok.str kv.2] ++ ts) =
      some (kv, ts) := rfl

theorem mapInsert_append (k : String) (v : String) :
    ∀ (acc : Metadata), (∀ p ∈ acc, p.1 < k) → mapInsert k v acc = acc ++ [(k, v)] := by
  intro acc
  induction acc with
  | nil => intro _; rfl
  | cons p ps ih =>
    intro h
    obtain ⟨k1, v1⟩ := p
    have hk1 : k1 < k := h (k1, v1) (List.mem_cons_self _ _)
    unfold mapInsert
    rw [if_neg (asymm hk1), if_neg (ne_of_gt hk1)]
    rw [ih (fun q hq => h q (List.mem_cons_of_mem _ hq))]
    simp

theorem foldl_mapInsert_sorted :
    ∀ (m acc : Metadata), (∀ p ∈ acc, ∀ q ∈ m, p.1 < q.1) → MetaCanon m →
      m.foldl (fun acc p => mapInsert p.1 p.2 acc) acc = acc ++ m := by
  intro m
  induction m with
  | nil => intro acc _ _; simp
  | cons q qs ih =>
    intro acc hcross hp
    have h1 : mapInsert q.1 q.2 acc = acc ++ [q] :=
      mapInsert_append q.1 q.2 acc (fun p hp' => hcross p hp' q (List.mem_cons_self q qs))
    have h2 : ∀ p ∈ acc ++ [q], ∀ r ∈ qs, p.1 < r.1 := by
      intro p hp' r hr
      rcases List.mem_append.mp hp' with h3 | h3
      · exact hcross p h3 r (List.mem_cons_of_mem q hr)
      · rw [List.mem_singleton] at h3
        subst h3
        exact (List.pairwise_cons.mp hp).1 r hr
    rw [List.foldl_cons, h1, ih (acc ++ [q]) h2 (List.pairwise_cons.mp hp).2]
    simp

theorem rdMeta_toks (m : Metadata) (hm : MetaCanon m) (ts : List Tok) :
    rdMeta (metaToks m ++ ts) = some (m, ts) := by
  have h := rdN_flat rdPair
    (fun p => [Tok.sz p.1.length, Tok.str p.1, Tok.sz p.2.length, Tok.str p.2])
    (fun p => p) m (fun x _ ts => rdPair_toks x ts) ts
  rw [List.map_id'] at h
  unfold metaToks rdMeta rdSz
  simp only [List.cons_append, h]
  rw [foldl_mapInsert_sorted m [] (by simp) hm]
  simp

theorem rdVecMeta_toks (dim : Nat) (v : Vec) (hv : v.length = dim) (m : Metadata)
    (hm : MetaCanon m) (ts : List Tok) :
    rdVecMeta dim ((v.map Tok.f32 ++ metaToks m) ++ ts) = some ((v, m), ts) := by
  unfold rdVecMeta
  rw [List.append_assoc, ← hv]
  simp only [rdN_f32 v (metaToks m ++ ts), rdMeta_toks m hm ts]

theorem rdSQ_toks (q : ScalarQuantizer) (h1 : q.mins.length = q.original_dim)
    (h2 : q.maxs.length = q.original_dim) (ts : List Tok) :
    rdSQ (sqToks q ++ ts) = some (q, ts) := by
  have hm : (List.range q.original_dim).map (fun i => Tok.f32 (q.mins.getD i 0)) =
      q.mins.map Tok.f32 := by
    rw [← h1]
    exact range_map_getD_comp q.mins 0 Tok.f32
  have hx : (List.range q.original_dim).map (fun i => Tok.f32 (q.maxs.getD i 0)) =
      q.maxs.map Tok.f32 := by
    rw [← h2]
    exact range_map_getD_comp q.maxs 0 Tok.f32
  simp only [sqToks, rdSQ, rdSz, hm, hx, List.cons_append, List.append_assoc]
  rw [← h1]
  simp only [rdN_f32 q.mins (q.maxs.map Tok.f32 ++ ts)]
  rw [h1, ← h2]
  simp only [rdN_f32 q.maxs ts]
  rw [h2]

theorem metricOfInt_toInt (m : DistanceMetric) : metricOfInt (metricToInt m) = some m := by
  cases m <;> rfl

theorem setIns_nodup :
    ∀ (l : List Nat) (acc : List Nat), l.Nodup → (∀ x ∈ l, x ∉ acc) →
      l.foldl setIns acc = acc ++ l := by
  intro l
  induction l with
  | nil => intro acc _ _; simp
  | cons x xs ih =>
    intro acc hnd hdis
    have h1 : setIns acc x = acc ++ [x] := by
      unfold setIns
      rw [if_neg (hdis x (List.mem_cons_self x xs))]
    have h2 : ∀ y ∈ xs, y ∉ acc ++ [x] := by
      intro y hy hmem
      rcases List.mem_append.mp hmem with h3 | h3
      · exact hdis y (List.mem_cons_of_mem x hy) h3
      · rw [List.mem_singleton] at h3
        subst h3
        exact (List.nodup_cons.mp hnd).1 hy
    rw [List.foldl_cons, h1, ih (acc ++ [x]) (List.nodup_cons.mp hnd).2 h2]
    simp

/-- On any state satisfying `saveWf`, parsing the saved token stream
succeeds and rebuilds every field from the stream (the entry point from
the last node, encodings re-derived from the loaded quantizer). -/
theorem parseFile_saveToks (db : Database) (hwf : saveWf db) :
    parseFile db.hnsw.sq (saveToks db) = some
      { vector_storage :=
          ⟨db.hnsw.vector_storage.vector_dimension,
           db.hnsw.vector_storage.vectors,
           db.hnsw.vector_storage.metadata,
           match db.hnsw.sq with
           | some q =>
             if q.is_trained then db.hnsw.vector_storage.vectors.map q.encodeRaw else []
           | none => []⟩
        nodes := db.hnsw.nodes
        entry_point_id :=
          match db.hnsw.nodes.getLast? with
          | some n => (n.id : Int)
          | none => -1
        M := db.hnsw.M
        efConstruction := db.hnsw.efConstruction
        efSearch := db.hnsw.efSearch
        distance_metric := db.hnsw.distance_metric
        sq := db.hnsw.sq
        deleted_nodes := db.hnsw.deleted_nodes } := by
  obtain ⟨hn, hv, hml, hmc, hnd, hsq⟩ := hwf
  have hnodes : ∀ ts, rdN rdNode db.hnsw.nodes.length
      (flatList nodeToks db.hnsw.nodes ++ ts) = some (db.hnsw.nodes, ts) := by
    intro ts
    have h := rdN_flat rdNode nodeToks id db.hnsw.nodes
      (fun n hmem ts => rdNode_toks n (hn n hmem) ts) ts
    simpa using h
  have hzip : ∀ ts, rdN (rdVecMeta db.hnsw.vector_storage.vector_dimension)
      db.hnsw.vector_storage.vectors.length
      (flatList (fun p => p.1.map Tok.f32 ++ metaToks p.2)
        (db.hnsw.vector_storage.vectors.zip db.hnsw.vector_storage.metadata) ++ ts) =
      some (db.hnsw.vector_storage.vectors.zip db.hnsw.vector_storage.metadata, ts) := by
    intro ts
    have h := rdN_flat (rdVecMeta db.hnsw.vector_storage.vector_dimension)
      (fun p => p.1.map Tok.f32 ++ metaToks p.2) id
      (db.hnsw.vector_storage.vectors.zip db.hnsw.vector_storage.metadata)
      (fun p hmem ts => by
        obtain ⟨v, m⟩ := p
        exact rdVecMeta_toks db.hnsw.vector_storage.vector_dimension v
          (hv v (List.of_mem_zip hmem).1) m (hmc m (List.of_mem_zip hmem).2) ts) ts
    rw [List.map_id] at h
    rwa [List.length_zip, hml, Nat.min_self] at h
  have hdel : rdN rdU32 db.hnsw.deleted_nodes.length
      (db.hnsw.deleted_nodes.map Tok.u32) = some (db.hnsw.deleted_nodes, []) := by
    have h := rdN_u32 db.hnsw.deleted_nodes []
    simpa using h
  have hfold : db.hnsw.deleted_nodes.foldl setIns [] = db.hnsw.deleted_nodes := by
    have h := setIns_nodup db.hnsw.deleted_nodes [] hnd (by simp)
    simpa using h
  have hfst : (db.hnsw.vector_storage.vectors.zip db.hnsw.vector_storage.metadata).map
      (fun p => p.1) = db.hnsw.vector_storage.vectors :=
    List.map_fst_zip _ _ (le_of_eq hml.symm)
  have hsnd : (db.hnsw.vector_storage.vectors.zip db.hnsw.vector_storage.metadata).map
      (fun p => p.2) = db.hnsw.vector_storage.metadata :=
    List.map_snd_zip _ _ (le_of_eq hml)
  cases hsqv : db.hnsw.sq with
  | none =>
    simp [saveToks, hsqv, parseFile, rdB, rdI32, rdSz, metricOfInt_toInt,
      List.cons_append, List.nil_append, List.append_assoc,
      hnodes, hzip, hdel, hfold, hfst, hsnd]
  | some q =>
    rw [hsqv] at hsq
    have h1 : q.mins.length = q.original_dim := by
      simp only [sqWf, Bool.and_eq_true, beq_iff_eq] at hsq
      exact hsq.1.1
    have h2 : q.maxs.length = q.original_dim := by
      simp only [sqWf, Bool.and_eq_true, beq_iff_eq] at hsq
      exact hsq.1.2
    simp [saveToks, hsqv, parseFile, rdB, rdI32, rdSz, rdSQ_toks q h1 h2,
      metricOfInt_toInt, List.cons_append, List.nil_append, List.append_assoc,
      hnodes, hzip, hdel, hfold, hfst, hsnd]

/-- Claim C7 (amended): for every database state satisfying the
structural invariants every C++ run maintains (per-node neighbor arrays
of size max_layer + 1, stored vectors of the declared dimension,
metadata aligned with the vectors and in std::map key order, a
duplicate-free deleted list) whose attached quantizer, if any, is
trained with bounds arrays of its declared dimension, save followed by
load restores the node set (ids, max_layers, per-layer adjacency in
order), vectors, metadata, dimension, deleted set, and the parameters
M, ef_construction, ef_search, metric and quantizer bounds exactly.
With an enabled-but-untrained quantizer the round-trip is NOT the
identity, because ScalarQuantizer::save reads original_dim_ floats out
of bounds of the empty mins_/maxs_ arrays. -/
theorem save_load_roundtrip (db : Database) (h : saveWf db) :
    (db.load (some (saveToks db))).hnsw.nodes = db.hnsw.nodes ∧
    (db.load (some (saveToks db))).hnsw.vector_storage.vectors =
      db.hnsw.vector_storage.vectors ∧
    (db.load (some (saveToks db))).hnsw.vector_storage.metadata =
      db.hnsw.vector_storage.metadata ∧
    (db.load (some (saveToks db))).hnsw.vector_storage.vector_dimension =
      db.hnsw.vector_storage.vector_dimension ∧
    (db.load (some (saveToks db))).hnsw.deleted_nodes = db.hnsw.deleted_nodes ∧
    (db.load (some (saveToks db))).hnsw.M = db.hnsw.M ∧
    (db.load (some (saveToks db))).hnsw.efConstruction = db.hnsw.efConstruction ∧
    (db.load (some (saveToks db))).hnsw.efSearch = db.hnsw.efSearch ∧
    (db.load (some (saveToks db))).hnsw.distance_metric = db.hnsw.distance_metric ∧
    (db.load (some (saveToks db))).hnsw.sq = db.hnsw.sq := by
  have hp := parseFile_saveToks db h
  simp only [Database.load, hp]
  exact ⟨trivial, trivial, trivial, trivial, trivial, trivial, trivial, trivial,
    trivial, trivial⟩

/-- Claim C7 witness: the round-trip at a concrete populated database
with one node, metadata, a tombstone and a trained quantizer. -/
theorem save_load_roundtrip_witness :
    (rtDb.load (some (saveToks rtDb))).hnsw.nodes = rtDb.hnsw.nodes ∧
    (rtDb.load (some (saveToks rtDb))).hnsw.vector_storage.vectors =
      rtDb.hnsw.vector_storage.vectors ∧
    (rtDb.load (some (saveToks rtDb))).hnsw.vector_storage.metadata =
      rtDb.hnsw.vector_storage.metadata ∧
    (rtDb.load (some (saveToks rtDb))).hnsw.vector_storage.vector_dimension =
      rtDb.hnsw.vector_storage.vector_dimension ∧
    (rtDb.load (some (saveToks rtDb))).hnsw.deleted_nodes = rtDb.hnsw.deleted_nodes ∧
    (rtDb.load (some (saveToks rtDb))).hnsw.M = rtDb.hnsw.M ∧
    (rtDb.load (some (saveToks rtDb))).hnsw.efConstruction = rtDb.hnsw.efConstruction ∧
    (rtDb.load (some (saveToks rtDb))).hnsw.efSearch = rtDb.hnsw.efSearch ∧
    (rtDb.load (some (saveToks rtDb))).hnsw.distance_metric = rtDb.hnsw.distance_metric ∧
    (rtDb.load (some (saveToks rtDb))).hnsw.sq = rtDb.hnsw.sq :=
  save_load_roundtrip rtDb
    ⟨by decide, by decide, by decide, by decide, by decide, by decide⟩

/-- Claim C7 counterexample: with quantization enabled but untrained,
save writes original_dim_ garbage bound floats (an out-of-bounds read
from the empty mins_/maxs_), so the loaded quantizer has bounds arrays
of length original_dim_ while the saved one has empty bounds: the claim
"save then load yields identical quantizer bounds for every index
state" fails. -/
theorem save_load_roundtrip_cex :
    (sqUntrainedDb.load (some (saveToks sqUntrainedDb))).hnsw.sq ≠
      sqUntrainedDb.hnsw.sq := by
  decide

end VecDB

